import Mathlib

/-!
# Verification of the screeps-exporter collection-and-projection pipeline

This file gives a shallow embedding of the two program variants found in
`main.go` of the screeps-exporter repository and proves properties of the
collection cycle (`updateStats`), the metric-store projection, and the
compressed-history decode pipeline.

Modelling conventions:
* Go `float64` metric values are modelled as `ℚ`; the program only copies
  these values from decoded responses into gauges, it never performs any
  floating-point arithmetic on them, so exact rationals are a faithful
  carrier.
* A Prometheus `GaugeVec` is modelled as an association list from label
  sets to values; `Reset` empties the list and `With(...).Set(v)` upserts
  one entry keyed by its label set.
* The histogram `processingDuration` is modelled by the number of
  observations recorded (`durObs`); the observed value itself is wall-clock
  time, which is outside the embedding, and no claim depends on it.
* Each fetch helper performs network I/O; the embedding passes the outcome
  of every fetch in as an environment (`Env`), and `updateStats`
  additionally returns the ordered trace of fetch targets it actually
  attempted, which is exactly the sequence of HTTP requests the Go code
  would issue.
-/

/-- A Prometheus label set, in the construction order of the Go literal. -/
abbrev Labels := List (String × String)

/-- One gauge family: an association list from label sets to values. -/
abbrev Gauge := List (Labels × ℚ)

/-- Model of `vec.With(labels).Set(v)`: upsert the series keyed by `ls`. -/
def gset (g : Gauge) (ls : Labels) (v : ℚ) : Gauge :=
  g.filter (fun e => e.1 ≠ ls) ++ [(ls, v)]

namespace Seg

/-! ## Variant 1: the multi-shard memory-segment program

Data types translated from the Go structs of the first `main.go` variant
(`AuthMeResponse`, `MarketOrder`, `MarketOrdersResponse`, `Cpu`,
`Progress`, `Room`, `Stats`).  Go maps are modelled as association
lists. -/

structure AuthMeResponse where
  money : ℚ
  cpuShard : List (String × ℚ)
  resources : List (String × ℚ)
  deriving DecidableEq

structure MarketOrder where
  active : Bool
  type : String
  amount : ℚ
  remainingAmount : ℚ
  resourceType : String
  price : ℚ
  totalAmount : ℚ
  roomName : String
  deriving DecidableEq

structure MarketOrdersResponse where
  shards : List (String × List MarketOrder)
  deriving DecidableEq

structure Cpu where
  used : ℚ
  limit : ℚ
  bucket : ℚ
  deriving DecidableEq

structure Progress where
  level : ℚ
  progress : ℚ
  progressTotal : ℚ
  deriving DecidableEq

structure Room where
  rcl : Progress
  structures : List (String × ℚ)
  creeps : ℚ
  energyAvailable : ℚ
  energyCapacityAvailable : ℚ
  storage : List (String × ℚ)
  terminal : List (String × ℚ)
  deriving DecidableEq

structure Stats where
  tick : ℚ
  ms : ℚ
  lastGlobalResetTick : ℚ
  lastGlobalResetMs : ℚ
  cpu : Cpu
  gcl : Progress
  gpl : Progress
  rooms : List (String × Room)
  deriving DecidableEq

/-- The Go zero value of `Stats` (what `statsMap[shard]` yields for a
missing key). -/
def Stats.zero : Stats :=
  { tick := 0, ms := 0, lastGlobalResetTick := 0, lastGlobalResetMs := 0
    cpu := { used := 0, limit := 0, bucket := 0 }
    gcl := { level := 0, progress := 0, progressTotal := 0 }
    gpl := { level := 0, progress := 0, progressTotal := 0 }
    rooms := [] }

/-- The process-wide metric store: every registered gauge family of the
first variant, plus the number of histogram observations recorded. -/
structure Store where
  cpuShard : Gauge
  resources : Gauge
  marketOrders : Gauge
  tick : Gauge
  ms : Gauge
  resetTick : Gauge
  resetMs : Gauge
  cpu : Gauge
  gcl : Gauge
  gpl : Gauge
  rcl : Gauge
  energy : Gauge
  creeps : Gauge
  structures : Gauge
  storage : Gauge
  terminal : Gauge
  durObs : Nat
  deriving DecidableEq

/-- A store with every gauge empty and no histogram observations. -/
def Store.empty : Store :=
  { cpuShard := [], resources := [], marketOrders := [], tick := [], ms := []
    resetTick := [], resetMs := [], cpu := [], gcl := [], gpl := [], rcl := []
    energy := [], creeps := [], structures := [], storage := [], terminal := []
    durObs := 0 }

/-- A fetch target of one collection cycle, in the order the Go code
issues the requests. -/
inductive Target where
  | authMe : Target
  | orders : Target
  | shard : String → Target
  deriving DecidableEq

/-- The outcomes of all fetches a cycle may perform: the environment in
which `updateStats` runs.  `shards` is the configured shard list. -/
structure Env where
  authMe : Except Unit AuthMeResponse
  orders : Except Unit MarketOrdersResponse
  shards : List String
  memStats : String → Except Unit Stats

def isOkB {α : Type} : Except Unit α → Bool
  | .ok _ => true
  | .error _ => false

/-- Success of a whole cycle: every fetch the cycle would perform
succeeds. -/
def Env.okB (env : Env) : Bool :=
  isOkB env.authMe && isOkB env.orders
    && env.shards.all (fun s => isOkB (env.memStats s))

/-- The room names reported by one shard fetch (empty when the fetch
failed). -/
def okRooms : Except Unit Stats → List String
  | .error _ => []
  | .ok st => st.rooms.map Prod.fst

/-- The per-shard fetch loop of `updateStats` (lines 276-284): fetch each
configured shard in order, aborting at the first error, and record the
fetch targets attempted. -/
def fetchLoop (env : Env) : List String →
    Except Unit (List (String × Stats)) × List Target
  | [] => (.ok [], [])
  | s :: rest =>
    match env.memStats s with
    | .error e => (.error e, [.shard s])
    | .ok stats =>
      match fetchLoop env rest with
      | (.error e, tr) => (.error e, .shard s :: tr)
      | (.ok m, tr) => (.ok ((s, stats) :: m), .shard s :: tr)

/-- `statsMap[shard]` with the Go missing-key default. -/
def lookupStats (m : List (String × Stats)) (s : String) : Stats :=
  match m.find? (fun e => e.1 = s) with
  | some e => e.2
  | none => Stats.zero

/-- The label set of one `market_orders` write (line 306 and following),
in the construction order of the Go literal. -/
def orderLabels (shard : String) (o : MarketOrder) (metric : String) : Labels :=
  [("shard", shard), ("room", o.roomName), ("type", o.resourceType),
    ("order_type", o.type), ("metric", metric)]

/-- The body of the market-order loop (lines 306-309): four
`marketOrders.With(...).Set(...)` calls for one order. -/
def applyOrder (shard : String) (o : MarketOrder) (st : Store) : Store :=
  { st with marketOrders := (gset (gset (gset (gset st.marketOrders
      (orderLabels shard o "price") o.price)
      (orderLabels shard o "amount") o.amount)
      (orderLabels shard o "remainingAmount") o.remainingAmount)
      (orderLabels shard o "totalAmount") o.totalAmount) }

/-- The room-scoped label set with a `type` label. -/
def roomTypeLabels (shard : String) (name : String) (t : String) : Labels :=
  [("shard", shard), ("room", name), ("type", t)]

/-- The body of the per-room loop (lines 332-351): each statement writes a
single gauge family, so the loop body is one record update per family. -/
def applyRoom (shard : String) (name : String) (room : Room) (st : Store) :
    Store :=
  { st with
    rcl := (gset (gset (gset st.rcl
      (roomTypeLabels shard name "level") room.rcl.level)
      (roomTypeLabels shard name "progress") room.rcl.progress)
      (roomTypeLabels shard name "progressTotal") room.rcl.progressTotal)
    energy := (gset (gset st.energy
      (roomTypeLabels shard name "available") room.energyAvailable)
      (roomTypeLabels shard name "capacityAvailable") room.energyCapacityAvailable)
    creeps := gset st.creeps [("shard", shard), ("room", name)] room.creeps
    structures := (room.structures.foldl (fun g p =>
      gset g (roomTypeLabels shard name p.1) p.2) st.structures)
    storage := (room.storage.foldl (fun g p =>
      gset g (roomTypeLabels shard name p.1) p.2) st.storage)
    terminal := (room.terminal.foldl (fun g p =>
      gset g (roomTypeLabels shard name p.1) p.2) st.terminal) }

/-- The shard-scoped label set with a `type` label. -/
def typeLabels (shard : String) (t : String) : Labels :=
  [("shard", shard), ("type", t)]

/-- The body of the per-shard projection loop (lines 313-352): the
per-shard counter writes (lines 315-330) followed by the room loop. -/
def applyShardStats (shard : String) (stats : Stats) (st : Store) : Store :=
  let st :=
    { st with
      tick := gset st.tick [("shard", shard)] stats.tick
      ms := gset st.ms [("shard", shard)] stats.ms
      resetTick := gset st.resetTick [("shard", shard)] stats.lastGlobalResetTick
      resetMs := gset st.resetMs [("shard", shard)] stats.lastGlobalResetMs
      cpu := (gset (gset (gset st.cpu
        (typeLabels shard "used") stats.cpu.used)
        (typeLabels shard "limit") stats.cpu.limit)
        (typeLabels shard "bucket") stats.cpu.bucket)
      gcl := (gset (gset (gset st.gcl
        (typeLabels shard "level") stats.gcl.level)
        (typeLabels shard "progress") stats.gcl.progress)
        (typeLabels shard "progressTotal") stats.gcl.progressTotal)
      gpl := (gset (gset (gset st.gpl
        (typeLabels shard "level") stats.gpl.level)
        (typeLabels shard "progress") stats.gpl.progress)
        (typeLabels shard "progressTotal") stats.gpl.progressTotal) }
  stats.rooms.foldl (fun st p => applyRoom shard p.1 p.2 st) st

/-- The nine `Reset()` calls of lines 286-294. -/
def resetGauges (st : Store) : Store :=
  { st with
    cpuShard := [], resources := [], marketOrders := []
    rcl := [], energy := [], creeps := [], structures := [], storage := []
    terminal := [] }

/-- Lines 296-302: populate `cpu_shard` and `resources` from the account
summary. -/
def populateAuthMe (a : AuthMeResponse) (st : Store) : Store :=
  { st with
    cpuShard := (a.cpuShard.foldl (fun g p => gset g [("shard", p.1)] p.2)
      st.cpuShard)
    resources := (a.resources.foldl (fun g p =>
      gset g (typeLabels "intershard" p.1) p.2)
      (gset st.resources (typeLabels "intershard" "money") a.money)) }

/-- Lines 304-311: populate `market_orders` from the market-orders
response. -/
def populateOrders (o : MarketOrdersResponse) (st : Store) : Store :=
  o.shards.foldl (fun st p => p.2.foldl (fun st ord => applyOrder p.1 ord st) st) st

/-- Lines 313-352: populate the per-shard and per-room gauges. -/
def populateShards (shards : List String) (m : List (String × Stats))
    (st : Store) : Store :=
  shards.foldl (fun st shard => applyShardStats shard (lookupStats m shard) st) st

/-- One collection cycle of the first variant (`updateStats`,
lines 263-354).  Returns the store after the cycle together with the
ordered list of fetch targets actually attempted. -/
def updateStats (env : Env) (st : Store) : Store × List Target :=
  match env.authMe with
  | .error _ => (st, [.authMe])
  | .ok authMe =>
  match env.orders with
  | .error _ => (st, [.authMe, .orders])
  | .ok orders =>
  match fetchLoop env env.shards with
  | (.error _, tr) => (st, .authMe :: .orders :: tr)
  | (.ok statsMap, tr) =>
    let st := resetGauges st
    let st := populateAuthMe authMe st
    let st := populateOrders orders st
    let st := populateShards env.shards statsMap st
    -- line 353: processingDuration.Observe(...)
    ({ st with durObs := st.durObs + 1 }, .authMe :: .orders :: tr)


/-- Absence of a room label: no series of rcl, energy, creeps, structures
or storage carries the label pair room = rn. -/
def NoRoom (rn : String) (st : Store) : Prop :=
  (∀ e ∈ st.rcl, ("room", rn) ∉ e.1) ∧
  (∀ e ∈ st.energy, ("room", rn) ∉ e.1) ∧
  (∀ e ∈ st.creeps, ("room", rn) ∉ e.1) ∧
  (∀ e ∈ st.structures, ("room", rn) ∉ e.1) ∧
  (∀ e ∈ st.storage, ("room", rn) ∉ e.1)

end Seg

/-! ## Concrete cycle environments used as test inputs -/

/-- A successful account summary with one shard allocation and one
resource. -/
def authC1 : Seg.AuthMeResponse :=
  { money := 100, cpuShard := [("shard0", 20)], resources := [("energy", 50)] }

/-- An empty market-orders response. -/
def ordC1 : Seg.MarketOrdersResponse := { shards := [] }

/-- A fully successful environment with one configured shard reporting
empty stats. -/
def envC1 : Seg.Env :=
  { authMe := .ok authC1
    orders := .ok ordC1
    shards := ["shard0"]
    memStats := fun _ => .ok Seg.Stats.zero }

/-- A store carrying a stale tick series for a shard named ghost. -/
def stC1 : Seg.Store :=
  { Seg.Store.empty with tick := [([("shard", "ghost")], 5)] }

/-- A store carrying series for room W1N1 from an earlier cycle. -/
def stC2 : Seg.Store :=
  { Seg.Store.empty with
    rcl := [(Seg.roomTypeLabels "shard0" "W1N1" "level", 3)]
    creeps := [([("shard", "shard0"), ("room", "W1N1")], 5)] }

/-- An environment whose first shard fetch fails while a second shard is
configured. -/
def envC8 : Seg.Env :=
  { authMe := .ok authC1
    orders := .ok ordC1
    shards := ["s0", "s1"]
    memStats := fun s => if s = "s0" then .error () else .ok Seg.Stats.zero }


/-! ## Byte-level codecs

The compressed-history variant decodes its payload with Go's standard
`encoding/base64`, `compress/gzip` and `encoding/json` packages.  These
are modelled below over byte lists (`Bytes`, naturals below 256).  The
gzip model covers exactly the stored-block (uncompressed) subset of
DEFLATE with a single gzip member and `FLG = 0`: inputs outside this
subset decode to `none` where Go would handle them, which only shrinks
the domain on which theorems about successful decodes speak. -/

/-- A byte string; well-formed values hold only naturals below 256. -/
abbrev Bytes := List Nat

/-- The standard base64 alphabet, index to character code. -/
def b64Char (i : Nat) : Nat :=
  if i < 26 then 65 + i
  else if i < 52 then 97 + (i - 26)
  else if i < 62 then 48 + (i - 52)
  else if i = 62 then 43
  else 47

/-- Standard padded base64 encoding. -/
def base64Encode : Bytes → Bytes
  | [] => []
  | [b0] => [b64Char (b0 / 4), b64Char (b0 % 4 * 16), 61, 61]
  | [b0, b1] =>
    [b64Char (b0 / 4), b64Char (b0 % 4 * 16 + b1 / 16), b64Char (b1 % 16 * 4), 61]
  | b0 :: b1 :: b2 :: rest =>
    b64Char (b0 / 4) :: b64Char (b0 % 4 * 16 + b1 / 16) ::
      b64Char (b1 % 16 * 4 + b2 / 64) :: b64Char (b2 % 64) :: base64Encode rest

/-- Character code to alphabet index. -/
def b64Index (c : Nat) : Option Nat :=
  if 65 ≤ c ∧ c ≤ 90 then some (c - 65)
  else if 97 ≤ c ∧ c ≤ 122 then some (c - 97 + 26)
  else if 48 ≤ c ∧ c ≤ 57 then some (c - 48 + 52)
  else if c = 43 then some 62
  else if c = 47 then some 63
  else none

/-- Decode base64 in groups of four characters; padding is accepted only
in the final group, as in Go's `base64.StdEncoding`. -/
def base64DecodeAux : Bytes → Option Bytes
  | [] => some []
  | c0 :: c1 :: c2 :: c3 :: rest =>
    match b64Index c0, b64Index c1 with
    | some i0, some i1 =>
      if c2 = 61 then
        if c3 = 61 ∧ rest = [] then some [i0 * 4 + i1 / 16] else none
      else
        match b64Index c2 with
        | some i2 =>
          if c3 = 61 then
            if rest = [] then some [i0 * 4 + i1 / 16, i1 % 16 * 16 + i2 / 4]
            else none
          else
            match b64Index c3 with
            | some i3 =>
              match base64DecodeAux rest with
              | some bs => some ((i0 * 4 + i1 / 16) :: (i1 % 16 * 16 + i2 / 4) ::
                  (i2 % 4 * 64 + i3) :: bs)
              | none => none
            | none => none
        | none => none
    | _, _ => none
  | _ => none

/-- Model of `base64.StdEncoding.DecodeString`, which skips carriage
returns and newlines before decoding. -/
def base64Decode (s : Bytes) : Option Bytes :=
  base64DecodeAux (s.filter (fun c => c ≠ 13 ∧ c ≠ 10))

/-- One bit step of the reflected CRC-32 polynomial 0xEDB88320. -/
def crcRound (c : Nat) : Nat :=
  if c % 2 = 1 then (c / 2) ^^^ 3988292384 else c / 2

/-- Fold one byte into a CRC-32 state. -/
def crc32Update (c b : Nat) : Nat :=
  crcRound (crcRound (crcRound (crcRound
    (crcRound (crcRound (crcRound (crcRound (c ^^^ b % 256))))))))

/-- CRC-32 (IEEE) of a byte string. -/
def crc32 (data : Bytes) : Nat :=
  (data.foldl crc32Update 4294967295) ^^^ 4294967295

/-- Two bytes, little endian. -/
def le16 (n : Nat) : Bytes := [n % 256, n / 256 % 256]

/-- Four bytes, little endian. -/
def le32 (n : Nat) : Bytes :=
  [n % 256, n / 256 % 256, n / 65536 % 256, n / 16777216 % 256]

/-- DEFLATE stream made only of stored (uncompressed) blocks: header byte
with BFINAL in bit 0 and BTYPE = 00, then LEN, NLEN (one's complement)
and LEN raw bytes, chunking the input at 65535. -/
def deflateStored (d : Bytes) : Bytes :=
  if d.length ≤ 65535 then
    1 :: (le16 d.length ++ le16 (65535 - d.length) ++ d)
  else
    0 :: (le16 65535 ++ le16 0 ++ d.take 65535 ++ deflateStored (d.drop 65535))
termination_by d.length
decreasing_by
  simp only [List.length_drop]
  omega

/-- Inflate a stored-block DEFLATE stream, returning the payload and the
remaining input.  The fuel argument only bounds the number of blocks. -/
def inflateStored : Nat → Bytes → Option (Bytes × Bytes)
  | 0, _ => none
  | fuel + 1, input =>
    match input with
    | b :: l0 :: l1 :: n0 :: n1 :: rest =>
      if b / 2 % 4 = 0 ∧ n0 + 256 * n1 = 65535 - (l0 + 256 * l1) ∧
          l0 + 256 * l1 ≤ rest.length then
        let len := l0 + 256 * l1
        let chunk := rest.take len
        let rest2 := rest.drop len
        if b % 2 = 1 then some (chunk, rest2)
        else
          match inflateStored fuel rest2 with
          | some (tail, r) => some (chunk ++ tail, r)
          | none => none
      else none
    | _ => none

/-- Model of reading one gzip member with `gzip.NewReader` (restricted to
FLG = 0 and stored deflate blocks): check the magic bytes and method,
skip MTIME, XFL and OS, inflate, then verify the CRC-32 and length
trailer. -/
def gunzip (z : Bytes) : Option Bytes :=
  match z with
  | 31 :: 139 :: 8 :: 0 :: _ :: _ :: _ :: _ :: _ :: _ :: rest =>
    match inflateStored (rest.length + 1) rest with
    | some (d, tr) =>
      if tr = le32 (crc32 d) ++ le32 (d.length % 4294967296) then some d
      else none
    | none => none
  | _ => none

/-- Modelled from the spec: the gzip compression applied by the
stats-publishing side of the compressed-history strategy (that side is
not part of this repository).  Emits a standard gzip member with stored
deflate blocks: header, deflate stream, CRC-32 and length trailer. -/
def gzipCompress (d : Bytes) : Bytes :=
  [31, 139, 8, 0, 0, 0, 0, 0, 0, 255] ++ deflateStored d ++
    le32 (crc32 d) ++ le32 (d.length % 4294967296)

/-! ## A byte-level JSON codec

Decoding models `encoding/json` on the shapes the program uses; numbers
are kept as exact decimal literals (mantissa and number of fraction
digits), since the program never computes with them.  The parser accepts
a subset of JSON (no whitespace, no exponents, no unicode escapes); on
payloads produced by the modelled encoder it is exact. -/

inductive Json where
  | num (m : Int) (s : Nat) : Json
  | str (b : Bytes) : Json
  | jbool (b : Bool) : Json
  | jnull : Json
  | arr (xs : List Json) : Json
  | obj (fs : List (Bytes × Json)) : Json

/-- Escape quote and backslash inside a JSON string literal. -/
def escBytes : Bytes → Bytes
  | [] => []
  | c :: r => if c = 34 ∨ c = 92 then 92 :: c :: escBytes r else c :: escBytes r

def natDigitsAux : Nat → Nat → Bytes
  | 0, _ => []
  | fuel + 1, n => if n = 0 then [] else natDigitsAux fuel (n / 10) ++ [48 + n % 10]

/-- Decimal digits of a natural number, most significant first. -/
def natDigits (n : Nat) : Bytes := if n = 0 then [48] else natDigitsAux n n

/-- Render the JSON number with mantissa `m` and `s` fraction digits. -/
def renderNum (m : Int) (s : Nat) : Bytes :=
  let sign : Bytes := if m < 0 then [45] else []
  let ds := natDigits m.natAbs
  if s = 0 then sign ++ ds
  else
    let pd := List.replicate (s + 1 - ds.length) 48 ++ ds
    sign ++ (pd.take (pd.length - s) ++ 46 :: pd.drop (pd.length - s))

/-- The digits part of a rendered number (everything after the optional
sign). -/
def numBody (m : Int) (s : Nat) : Bytes :=
  let ds := natDigits m.natAbs
  if s = 0 then ds
  else
    let pd := List.replicate (s + 1 - ds.length) 48 ++ ds
    pd.take (pd.length - s) ++ 46 :: pd.drop (pd.length - s)

mutual
/-- Serialize a JSON value to bytes (no whitespace, keys as given). -/
def render : Json → Bytes
  | .num m s => renderNum m s
  | .str b => 34 :: (escBytes b ++ [34])
  | .jbool true => [116, 114, 117, 101]
  | .jbool false => [102, 97, 108, 115, 101]
  | .jnull => [110, 117, 108, 108]
  | .arr [] => [91, 93]
  | .arr (x :: xs) => 91 :: (render x ++ renderArrTail xs)
  | .obj [] => [123, 125]
  | .obj (e :: es) => 123 :: (renderEntry e ++ renderObjTail es)

def renderArrTail : List Json → Bytes
  | [] => [93]
  | x :: xs => 44 :: (render x ++ renderArrTail xs)

def renderEntry : Bytes × Json → Bytes
  | (k, v) => 34 :: (escBytes k ++ [34]) ++ 58 :: render v

def renderObjTail : List (Bytes × Json) → Bytes
  | [] => [125]
  | e :: es => 44 :: (renderEntry e ++ renderObjTail es)
end

def isDigit (c : Nat) : Bool := 48 ≤ c && c ≤ 57

/-- Value of a most-significant-first digit string. -/
def digitsVal (ds : Bytes) : Nat := ds.foldl (fun a d => a * 10 + (d - 48)) 0

/-- Read a nonempty run of digits. -/
def parseDigits (input : Bytes) : Option (Bytes × Bytes) :=
  let ds := input.takeWhile isDigit
  if ds.isEmpty then none else some (ds, input.dropWhile isDigit)

/-- Parse integer part, optional fraction, after an optional sign. -/
def parseNumTail (neg : Bool) (in1 : Bytes) : Option (Json × Bytes) :=
  match parseDigits in1 with
  | none => none
  | some (d1, r1) =>
    match r1 with
    | [] =>
      let v : Int := (digitsVal d1 : Nat)
      some (.num (if neg then -v else v) 0, [])
    | c :: r2 =>
      if c = 46 then
        match parseDigits r2 with
        | none => none
        | some (d2, r3) =>
          let v : Int := (digitsVal (d1 ++ d2) : Nat)
          some (.num (if neg then -v else v) d2.length, r3)
      else
        let v : Int := (digitsVal d1 : Nat)
        some (.num (if neg then -v else v) 0, r1)

def parseNumBody (input : Bytes) : Option (Json × Bytes) :=
  match input with
  | [] => none
  | c :: r => if c = 45 then parseNumTail true r else parseNumTail false input

/-- Read a string body up to the closing quote, unescaping the two
escapes the renderer emits. -/
def parseStrAux : Nat → Bytes → Option (Bytes × Bytes)
  | 0, _ => none
  | _ + 1, [] => none
  | fuel + 1, c :: rest =>
    if c = 34 then some ([], rest)
    else if c = 92 then
      match rest with
      | [] => none
      | c2 :: rest2 =>
        if c2 = 34 ∨ c2 = 92 then
          match parseStrAux fuel rest2 with
          | some (b, r) => some (c2 :: b, r)
          | none => none
        else none
    else
      match parseStrAux fuel rest with
      | some (b, r) => some (c :: b, r)
      | none => none

mutual
/-- Parse one JSON value; the fuel bounds the number of parse frames. -/
def parseValue : Nat → Bytes → Option (Json × Bytes)
  | 0, _ => none
  | _ + 1, [] => none
  | fuel + 1, c :: rest =>
    if c = 91 then
      match rest with
      | [] => none
      | c2 :: r2 =>
        if c2 = 93 then some (.arr [], r2)
        else
          match parseArrElems fuel rest with
          | some (xs, r3) => some (.arr xs, r3)
          | none => none
    else if c = 123 then
      match rest with
      | [] => none
      | c2 :: r2 =>
        if c2 = 125 then some (.obj [], r2)
        else
          match parseObjElems fuel rest with
          | some (fs, r3) => some (.obj fs, r3)
          | none => none
    else if c = 34 then
      match parseStrAux (rest.length + 1) rest with
      | some (b, r2) => some (.str b, r2)
      | none => none
    else if c = 116 then
      match rest with
      | 114 :: 117 :: 101 :: r2 => some (.jbool true, r2)
      | _ => none
    else if c = 102 then
      match rest with
      | 97 :: 108 :: 115 :: 101 :: r2 => some (.jbool false, r2)
      | _ => none
    else if c = 110 then
      match rest with
      | 117 :: 108 :: 108 :: r2 => some (.jnull, r2)
      | _ => none
    else if c = 45 ∨ isDigit c then parseNumBody (c :: rest)
    else none

/-- Parse the elements of a nonempty array after the opening bracket. -/
def parseArrElems : Nat → Bytes → Option (List Json × Bytes)
  | 0, _ => none
  | fuel + 1, input =>
    match parseValue fuel input with
    | none => none
    | some (x, r1) =>
      match r1 with
      | [] => none
      | c :: r2 =>
        if c = 44 then
          match parseArrElems fuel r2 with
          | some (xs, r3) => some (x :: xs, r3)
          | none => none
        else if c = 93 then some ([x], r2)
        else none

/-- Parse the members of a nonempty object after the opening brace. -/
def parseObjElems : Nat → Bytes → Option (List (Bytes × Json) × Bytes)
  | 0, _ => none
  | _ + 1, [] => none
  | fuel + 1, c :: r0 =>
    if c = 34 then
      match parseStrAux (r0.length + 1) r0 with
      | none => none
      | some (k, r1) =>
        match r1 with
        | [] => none
        | c2 :: r2 =>
          if c2 = 58 then
            match parseValue fuel r2 with
            | none => none
            | some (v, r3) =>
              match r3 with
              | [] => none
              | c3 :: r4 =>
                if c3 = 44 then
                  match parseObjElems fuel r4 with
                  | some (fs, r5) => some ((k, v) :: fs, r5)
                  | none => none
                else if c3 = 125 then some ([(k, v)], r4)
                else none
          else none
    else none
end

mutual
/-- Parse-frame count of a JSON value, bounding the fuel the parser
needs. -/
def nodes : Json → Nat
  | .arr xs => 1 + nodesL xs
  | .obj fs => 1 + nodesO fs
  | _ => 1

def nodesL : List Json → Nat
  | [] => 0
  | x :: xs => 1 + nodes x + nodesL xs

def nodesO : List (Bytes × Json) → Nat
  | [] => 0
  | e :: es => 1 + nodes e.2 + nodesO es
end

/-- Safety condition on the bytes following a rendered value: after a
number literal the stream must not continue with a digit or a dot. -/
def numSafe : Json → Bytes → Prop
  | .num _ _, rest => rest = [] ∨ ∃ c rs, rest = c :: rs ∧ isDigit c = false ∧ c ≠ 46
  | _, _ => True

/-- Model of decoding one JSON value from a byte payload (Go's
`json.Decoder.Decode` reads one value and ignores the remainder of the
stream). -/
def jsonParse (d : Bytes) : Option Json := (parseValue d.length d).map Prod.fst


mutual
/-- All string contents and object keys of a JSON value are bytes
(each < 256). -/
def jsonWf : Json → Prop
  | .num _ _ => True
  | .str b => ∀ c ∈ b, c < 256
  | .jbool _ => True
  | .jnull => True
  | .arr xs => jsonWfL xs

  | .obj fs => jsonWfO fs

def jsonWfL : List Json → Prop
  | [] => True
  | x :: xs => jsonWf x ∧ jsonWfL xs

def jsonWfO : List (Bytes × Json) → Prop
  | [] => True
  | e :: es => (∀ c ∈ e.1, c < 256) ∧ jsonWf e.2 ∧ jsonWfO es
end

/-! ## The single-shard compressed-history variant

This namespace models the second program: `updateStats` fetches one
memory endpoint, whose response carries a (possibly `"gz:"`-marked)
base64 string of a gzipped JSON `Memory` document holding a chronological
list of `Stats` snapshots.  Go `float64` fields are never computed on, so
they are carried as the exact decimal literal of the JSON payload
(mantissa and fraction-digit count); Go maps are carried as association
lists in insertion order with distinct keys. -/
namespace Hist

/-- A `float64` field, as the exact decimal literal `m / 10 ^ s` it was
decoded from. -/
structure GoFloat where
  m : Int
  s : Nat
deriving DecidableEq

def GoFloat.zero : GoFloat := ⟨0, 0⟩

structure Cpu where
  used : GoFloat
  limit : GoFloat
  bucket : GoFloat
deriving DecidableEq

def Cpu.zero : Cpu := ⟨GoFloat.zero, GoFloat.zero, GoFloat.zero⟩

structure Progress where
  level : Int
  progress : GoFloat
  progressTotal : GoFloat
deriving DecidableEq

def Progress.zero : Progress := ⟨0, GoFloat.zero, GoFloat.zero⟩

structure Room where
  rcl : Progress
  structures : List (Bytes × Int)
  creeps : Int
  energyAvailable : GoFloat
  energyCapacityAvailable : GoFloat
  storage : List (Bytes × Int)
deriving DecidableEq

def Room.zero : Room := ⟨Progress.zero, [], 0, GoFloat.zero, GoFloat.zero, []⟩

structure Stats where
  tick : Nat
  ms : Nat
  cpu : Cpu
  gcl : Progress
  gpl : Progress
  rooms : List (Bytes × Room)
deriving DecidableEq

def Stats.zero : Stats := ⟨0, 0, Cpu.zero, Progress.zero, Progress.zero, []⟩

structure MemoryStats where
  history : List Stats
deriving DecidableEq

structure Memory where
  stats : MemoryStats
deriving DecidableEq

structure MemoryResponse where
  ok : Int
  data : Bytes
deriving DecidableEq

/-! JSON object keys of the Go struct tags, as UTF-8 bytes. -/

def kOk : Bytes := [111, 107]
def kData : Bytes := [100, 97, 116, 97]
def kStats : Bytes := [115, 116, 97, 116, 115]
def kHistory : Bytes := [104, 105, 115, 116, 111, 114, 121]
def kTick : Bytes := [116, 105, 99, 107]
def kMs : Bytes := [109, 115]
def kCpu : Bytes := [99, 112, 117]
def kGcl : Bytes := [103, 99, 108]
def kGpl : Bytes := [103, 112, 108]
def kRooms : Bytes := [114, 111, 111, 109, 115]
def kUsed : Bytes := [117, 115, 101, 100]
def kLimit : Bytes := [108, 105, 109, 105, 116]
def kBucket : Bytes := [98, 117, 99, 107, 101, 116]
def kLevel : Bytes := [108, 101, 118, 101, 108]
def kProgress : Bytes := [112, 114, 111, 103, 114, 101, 115, 115]
def kProgressTotal : Bytes :=
  [112, 114, 111, 103, 114, 101, 115, 115, 84, 111, 116, 97, 108]
def kRcl : Bytes := [114, 99, 108]
def kStructures : Bytes :=
  [115, 116, 114, 117, 99, 116, 117, 114, 101, 115]
def kCreeps : Bytes := [99, 114, 101, 101, 112, 115]
def kEnergyAvailable : Bytes :=
  [101, 110, 101, 114, 103, 121, 65, 118, 97, 105, 108, 97, 98, 108, 101]
def kEnergyCapacityAvailable : Bytes :=
  [101, 110, 101, 114, 103, 121, 67, 97, 112, 97, 99, 105, 116, 121,
    65, 118, 97, 105, 108, 97, 98, 108, 101]
def kStorage : Bytes := [115, 116, 111, 114, 97, 103, 101]

/-- Find the value of a key in a decoded JSON object; on duplicate keys
the last occurrence wins, as each occurrence of a key overwrites the
field (or map entry) in `encoding/json`. -/
def jLookup (fs : List (Bytes × Json)) (k : Bytes) : Option Json :=
  fs.foldl (fun acc e => if e.1 = k then some e.2 else acc) none

/-- Decode a JSON value into an `int64`: `null` leaves the zero value;
a number must be an integer literal in `int64` range (`encoding/json`
feeds the literal text to `strconv.ParseInt`); anything else errors. -/
def decIntJ : Json → Option Int
  | .jnull => some 0
  | .num m s =>
    if s = 0 ∧ -(2 ^ 63) ≤ m ∧ m < 2 ^ 63 then some m else none
  | _ => none

/-- Decode an optional `int64` struct field; a missing field keeps the
zero value. -/
def decInt : Option Json → Option Int
  | none => some 0
  | some j => decIntJ j

/-- Decode an optional `uint64` struct field (`strconv.ParseUint`:
non-negative integer literal below `2 ^ 64`). -/
def decNat : Option Json → Option Nat
  | none => some 0
  | some .jnull => some 0
  | some (.num m s) =>
    if s = 0 ∧ 0 ≤ m ∧ m < 2 ^ 64 then some m.toNat else none
  | some _ => none

/-- Decode an optional `string` struct field. -/
def decBytes : Option Json → Option Bytes
  | none => some []
  | some .jnull => some []
  | some (.str b) => some b
  | some _ => none

/-- Decode an optional `float64` struct field, keeping the exact decimal
literal. -/
def decFloat : Option Json → Option GoFloat
  | none => some GoFloat.zero
  | some .jnull => some GoFloat.zero
  | some (.num m s) => some ⟨m, s⟩
  | some _ => none

/-- Store a key in an association-list map, overwriting in place as a Go
map assignment does. -/
def mput {α : Type} : List (Bytes × α) → Bytes → α → List (Bytes × α)
  | [], k, v => [(k, v)]
  | e :: t, k, v => if e.1 = k then (k, v) :: t else e :: mput t k v

/-- Decode the entries of a JSON object into a map, element decoder
`dec`, accumulating with `mput`. -/
def decMapAux {α : Type} (dec : Json → Option α) :
    List (Bytes × Json) → List (Bytes × α) → Option (List (Bytes × α))
  | [], acc => some acc
  | e :: t, acc =>
    match dec e.2 with
    | some v => decMapAux dec t (mput acc e.1 v)
    | none => none

/-- Decode an optional `map[string]T` struct field: missing or `null`
gives the nil map. -/
def decMap {α : Type} (dec : Json → Option α) : Option Json → Option (List (Bytes × α))
  | none => some []
  | some .jnull => some []
  | some (.obj fs) => decMapAux dec fs []
  | some _ => none

/-- Decode the elements of a JSON array into a slice. -/
def decListAux {α : Type} (dec : Json → Option α) : List Json → Option (List α)
  | [] => some []
  | x :: t =>
    match dec x, decListAux dec t with
    | some v, some vs => some (v :: vs)
    | _, _ => none

/-- Decode an optional `[]T` struct field: missing or `null` gives the
nil slice. -/
def decList {α : Type} (dec : Json → Option α) : Option Json → Option (List α)
  | none => some []
  | some .jnull => some []
  | some (.arr xs) => decListAux dec xs
  | some _ => none

/-- Decode a `Progress` struct field. -/
def jsonToProgress : Option Json → Option Progress
  | none => some Progress.zero
  | some .jnull => some Progress.zero
  | some (.obj fs) =>
    match decInt (jLookup fs kLevel), decFloat (jLookup fs kProgress),
        decFloat (jLookup fs kProgressTotal) with
    | some l, some p, some t => some ⟨l, p, t⟩
    | _, _, _ => none
  | some _ => none

/-- Decode a `Cpu` struct field. -/
def jsonToCpu : Option Json → Option Cpu
  | none => some Cpu.zero
  | some .jnull => some Cpu.zero
  | some (.obj fs) =>
    match decFloat (jLookup fs kUsed), decFloat (jLookup fs kLimit),
        decFloat (jLookup fs kBucket) with
    | some u, some l, some b => some ⟨u, l, b⟩
    | _, _, _ => none
  | some _ => none

/-- Decode one `Room` (appearing as a map value). -/
def jsonToRoomJ : Json → Option Room
  | .jnull => some Room.zero
  | .obj fs =>
    match jsonToProgress (jLookup fs kRcl), decMap decIntJ (jLookup fs kStructures),
        decInt (jLookup fs kCreeps), decFloat (jLookup fs kEnergyAvailable),
        decFloat (jLookup fs kEnergyCapacityAvailable),
        decMap decIntJ (jLookup fs kStorage) with
    | some rc, some st, some cr, some ea, some ec, some sg =>
      some ⟨rc, st, cr, ea, ec, sg⟩
    | _, _, _, _, _, _ => none
  | _ => none

/-- Decode one `Stats` snapshot (appearing as a history element). -/
def jsonToStatsJ : Json → Option Stats
  | .jnull => some Stats.zero
  | .obj fs =>
    match decNat (jLookup fs kTick), decNat (jLookup fs kMs),
        jsonToCpu (jLookup fs kCpu), jsonToProgress (jLookup fs kGcl),
        jsonToProgress (jLookup fs kGpl),
        decMap jsonToRoomJ (jLookup fs kRooms) with
    | some t, some m, some c, some g1, some g2, some r =>
      some ⟨t, m, c, g1, g2, r⟩
    | _, _, _, _, _, _ => none
  | _ => none

/-- Decode the anonymous `Stats` wrapper struct inside `Memory`. -/
def jsonToMemoryStats : Option Json → Option MemoryStats
  | none => some ⟨[]⟩
  | some .jnull => some ⟨[]⟩
  | some (.obj fs) =>
    match decList jsonToStatsJ (jLookup fs kHistory) with
    | some h => some ⟨h⟩
    | none => none
  | some _ => none

/-- Decode a `Memory` document (the top-level value of the decompressed
payload). -/
def jsonToMemoryJ : Json → Option Memory
  | .jnull => some ⟨⟨[]⟩⟩
  | .obj fs =>
    match jsonToMemoryStats (jLookup fs kStats) with
    | some s => some ⟨s⟩
    | none => none
  | _ => none

/-- Decode a `MemoryResponse` envelope (the HTTP response body). -/
def jsonToMemoryResponseJ : Json → Option MemoryResponse
  | .jnull => some ⟨0, []⟩
  | .obj fs =>
    match decInt (jLookup fs kOk), decBytes (jLookup fs kData) with
    | some o, some d => some ⟨o, d⟩
    | _, _ => none
  | _ => none

/-- The `"gz:"` marker bytes. -/
def gzMarker : Bytes := [103, 122, 58]

/-- Model of `strings.TrimPrefix(data, "gz:")`. -/
def stripGz (d : Bytes) : Bytes :=
  if d.take 3 = gzMarker then d.drop 3 else d

/-- The decode pipeline of lines 556-575: strip the marker, base64-decode,
gunzip, JSON-decode a `Memory`, then take `History[len(History)-1]`.  The
out-of-range indexing on an empty history is a panic in the program; here
it surfaces as `none` (its panic behaviour is captured by
`updateStats2`). -/
def decodeCompressed (d : Bytes) : Option Stats :=
  match base64Decode (stripGz d) with
  | none => none
  | some z =>
    match gunzip z with
    | none => none
    | some plain =>
      match jsonParse plain with
      | none => none
      | some j =>
        match jsonToMemoryJ j with
        | none => none
        | some mem => mem.stats.history.get? (mem.stats.history.length - 1)

/-- Modelled from the spec: the same pipeline in the words of the spec -
strip the marker if present, base64-decode, gzip-decompress, JSON-decode
into a `Memory`, and select the last element of the chronological
snapshot list, discarding all earlier elements. -/
def specDecodeCompressed (d : Bytes) : Option Stats :=
  match base64Decode (stripGz d) with
  | none => none
  | some z =>
    match gunzip z with
    | none => none
    | some plain =>
      match jsonParse plain with
      | none => none
      | some j =>
        match jsonToMemoryJ j with
        | none => none
        | some mem => mem.stats.history.getLast?

/-- How a collection cycle of this variant terminates: an ordinary
return (early after logging a fetch or decode error, or at the end of
the function), or a runtime panic. -/
inductive CycleOutcome where
  | ret : CycleOutcome
  | panicked : CycleOutcome
deriving DecidableEq

/-- One collection cycle of the second `updateStats` (lines 536-615),
reduced to its termination behaviour on a given HTTP response body: every
fetch or decode error returns after logging, but the indexing
`memory.Stats.History[len(memory.Stats.History)-1]` at line 575 panics
when the decoded history list is empty. -/
def updateStats2 (body : Bytes) : CycleOutcome :=
  match jsonParse body with
  | none => .ret
  | some bj =>
    match jsonToMemoryResponseJ bj with
    | none => .ret
    | some mr =>
      match base64Decode (stripGz mr.data) with
      | none => .ret
      | some z =>
        match gunzip z with
        | none => .ret
        | some plain =>
          match jsonParse plain with
          | none => .ret
          | some j =>
            match jsonToMemoryJ j with
            | none => .ret
            | some mem =>
              if mem.stats.history.isEmpty then .panicked else .ret

/-! Modelled from the spec: the stats-publishing side (not part of this
repository) serialises a `Memory` document as JSON, gzips and
base64-encodes it, optionally with the `"gz:"` marker. -/

/-- Modelled from the spec: a `float64` as its decimal JSON literal. -/
def jsonOfFloat (d : GoFloat) : Json := .num d.m d.s

/-- Modelled from the spec: JSON of a `Cpu`. -/
def jsonOfCpu (c : Cpu) : Json :=
  .obj [(kUsed, jsonOfFloat c.used), (kLimit, jsonOfFloat c.limit),
    (kBucket, jsonOfFloat c.bucket)]

/-- Modelled from the spec: JSON of a `Progress`. -/
def jsonOfProgress (p : Progress) : Json :=
  .obj [(kLevel, .num p.level 0), (kProgress, jsonOfFloat p.progress),
    (kProgressTotal, jsonOfFloat p.progressTotal)]

/-- Modelled from the spec: JSON of a `map[string]int64`. -/
def jsonOfIntMap (l : List (Bytes × Int)) : Json :=
  .obj (l.map (fun e => (e.1, Json.num e.2 0)))

/-- Modelled from the spec: JSON of a `Room`. -/
def jsonOfRoom (r : Room) : Json :=
  .obj [(kRcl, jsonOfProgress r.rcl), (kStructures, jsonOfIntMap r.structures),
    (kCreeps, .num r.creeps 0), (kEnergyAvailable, jsonOfFloat r.energyAvailable),
    (kEnergyCapacityAvailable, jsonOfFloat r.energyCapacityAvailable),
    (kStorage, jsonOfIntMap r.storage)]

/-- Modelled from the spec: JSON of a `Stats` snapshot. -/
def jsonOfStats (s : Stats) : Json :=
  .obj [(kTick, .num s.tick 0), (kMs, .num s.ms 0), (kCpu, jsonOfCpu s.cpu),
    (kGcl, jsonOfProgress s.gcl), (kGpl, jsonOfProgress s.gpl),
    (kRooms, .obj (s.rooms.map (fun e => (e.1, jsonOfRoom e.2))))]

/-- Modelled from the spec: JSON of a `Memory` document with the given
snapshot history. -/
def jsonOfMemory (h : List Stats) : Json :=
  .obj [(kStats, .obj [(kHistory, .arr (h.map jsonOfStats))])]

/-- Modelled from the spec: the compressed-history encoding of a single
`Stats` snapshot - JSON-encode a one-snapshot `Memory`, gzip, base64,
optionally prepending the `"gz:"` marker. -/
def encodeStats (withMarker : Bool) (s : Stats) : Bytes :=
  let payload := base64Encode (gzipCompress (render (jsonOfMemory [s])))
  if withMarker then gzMarker ++ payload else payload

/-- An `Int` in `int64` range. -/
def int64Ok (x : Int) : Prop := -(2 ^ 63) ≤ x ∧ x < 2 ^ 63

/-- All bytes of a string are bytes. -/
def wfBytes (b : Bytes) : Prop := ∀ c ∈ b, c < 256

/-- A well-formed `map[string]int64`: byte-valued keys without
duplicates, values in `int64` range. -/
def wfIntMap (l : List (Bytes × Int)) : Prop :=
  (∀ e ∈ l, wfBytes e.1 ∧ int64Ok e.2) ∧ (l.map Prod.fst).Nodup

/-- A well-formed `Progress`: its level fits `int64`. -/
def wfProgress (p : Progress) : Prop := int64Ok p.level

/-- A well-formed `Room`. -/
def wfRoom (r : Room) : Prop :=
  wfProgress r.rcl ∧ wfIntMap r.structures ∧ int64Ok r.creeps ∧
    wfIntMap r.storage

/-- A well-formed `Stats` snapshot: counters in `uint64` range, levels in
`int64` range, room names byte-valued and distinct. -/
def wfStats (s : Stats) : Prop :=
  s.tick < 2 ^ 64 ∧ s.ms < 2 ^ 64 ∧ wfProgress s.gcl ∧ wfProgress s.gpl ∧
    (∀ e ∈ s.rooms, wfBytes e.1 ∧ wfRoom e.2) ∧ (s.rooms.map Prod.fst).Nodup

end Hist

/-- The compressed-history payload of an empty snapshot history, with
the `"gz:"` marker. -/
def datumC4 : Bytes :=
  Hist.gzMarker ++ base64Encode (gzipCompress (render (Hist.jsonOfMemory [])))

/-- The JSON envelope of a response carrying `datumC4`. -/
def envJsonC4 : Json :=
  Json.obj [(Hist.kOk, Json.num 1 0), (Hist.kData, Json.str datumC4)]

/-- A response body for the compressed-history variant whose decoded
memory document holds an empty snapshot history. -/
def bodyC4 : Bytes := render envJsonC4

/-- A concrete snapshot for the round-trip witness. -/
def stC6 : Hist.Stats :=
  { tick := 42
    ms := 1700000000000
    cpu := { used := ⟨105, 1⟩, limit := ⟨20, 0⟩, bucket := ⟨5000, 0⟩ }
    gcl := { level := 3, progress := ⟨15, 1⟩, progressTotal := ⟨100, 0⟩ }
    gpl := { level := 1, progress := ⟨0, 0⟩, progressTotal := ⟨1000, 0⟩ }
    rooms := [([87, 49, 78, 49],
      { rcl := { level := 7, progress := ⟨5, 1⟩, progressTotal := ⟨10, 0⟩ }
        structures := [([115, 112, 97, 119, 110], 1)]
        creeps := 5
        energyAvailable := ⟨300, 0⟩
        energyCapacityAvailable := ⟨550, 0⟩
        storage := [([101, 110, 101, 114, 103, 121], 100000)] })] }

/-! ## Generic lemmas about the gauge model -/

/-- Membership after an upsert: every series either is the series just
written or was already present. -/
theorem mem_gset {g : Gauge} {ls : Labels} {v : ℚ} {e : Labels × ℚ}
    (h : e ∈ gset g ls v) : e = (ls, v) ∨ e ∈ g := by
  rcases List.mem_append.mp h with h1 | h1
  · exact Or.inr (List.mem_of_mem_filter h1)
  · exact Or.inl (List.mem_singleton.mp h1)

/-- `List.foldl` preserves any invariant preserved by each step taken on a
member of the folded list. -/
theorem foldl_inv {α β : Type} (P : α → Prop) :
    ∀ (l : List β) (f : α → β → α),
      (∀ a b, b ∈ l → P a → P (f a b)) → ∀ (a : α), P a → P (l.foldl f a) := by
  intro l
  induction l with
  | nil => intro f _ a ha; exact ha
  | cons x xs ih =>
    intro f h a ha
    exact ih f (fun a b hb => h a b (List.mem_cons_of_mem x hb)) (f a x)
      (h a x (List.mem_cons_self x xs) ha)

/-- A projection that every fold step leaves unchanged is unchanged by the
whole fold. -/
theorem foldl_pres {α β γ : Type} (f : α → β → α) (g : α → γ)
    (h : ∀ a b, g (f a b) = g a) :
    ∀ (l : List β) (a : α), g (l.foldl f a) = g a := by
  intro l
  induction l with
  | nil => intro a; rfl
  | cons x xs ih => intro a; rw [List.foldl_cons, ih (f a x), h a x]

/-- Membership in a fold of upserts into one gauge: the series was present
initially or is exactly the write generated by some member of the list. -/
theorem mem_foldl_gset {β : Type} (lab : β → Labels) (v : β → ℚ) :
    ∀ (l : List β) (g : Gauge) (e : Labels × ℚ),
      e ∈ l.foldl (fun g b => gset g (lab b) (v b)) g →
      e ∈ g ∨ ∃ b ∈ l, e = (lab b, v b) := by
  intro l
  induction l with
  | nil => intro g e he; exact Or.inl he
  | cons x xs ih =>
    intro g e he
    rcases ih (gset g (lab x) (v x)) e he with h1 | ⟨b, hb, rfl⟩
    · rcases mem_gset h1 with h2 | h2
      · exact Or.inr ⟨x, List.mem_cons_self x xs, h2⟩
      · exact Or.inl h2
    · exact Or.inr ⟨b, List.mem_cons_of_mem x hb, rfl⟩

namespace Seg

theorem isOkB_ok {α : Type} {x : Except Unit α} (h : isOkB x = true) :
    ∃ a, x = .ok a := by
  cases x with
  | error e => simp [isOkB] at h
  | ok a => exact ⟨a, rfl⟩

theorem isOkB_err {α : Type} {x : Except Unit α} (h : isOkB x = false) :
    x = .error () := by
  cases x with
  | error e => cases e; rfl
  | ok a => simp [isOkB] at h

/-- When every configured shard fetch succeeds, the fetch loop returns a
stats map. -/
theorem fetchLoop_ok (env : Env) :
    ∀ l, l.all (fun s => isOkB (env.memStats s)) = true →
      ∃ m tr, fetchLoop env l = (.ok m, tr) := by
  intro l
  induction l with
  | nil => intro _; exact ⟨[], [], rfl⟩
  | cons s rest ih =>
    intro h
    rw [List.all_cons, Bool.and_eq_true] at h
    obtain ⟨stats, hs⟩ := isOkB_ok h.1
    obtain ⟨m, tr, hm⟩ := ih h.2
    exact ⟨(s, stats) :: m, .shard s :: tr, by simp [fetchLoop, hs, hm]⟩

/-- When some configured shard fetch fails, the fetch loop returns an
error. -/
theorem fetchLoop_err (env : Env) :
    ∀ l, l.all (fun s => isOkB (env.memStats s)) = false →
      ∃ tr, fetchLoop env l = (.error (), tr) := by
  intro l
  induction l with
  | nil => intro h; simp at h
  | cons s rest ih =>
    intro h
    rw [List.all_cons, Bool.and_eq_false_iff] at h
    rcases h with h | h
    · exact ⟨[.shard s], by simp [fetchLoop, isOkB_err h]⟩
    · cases hx : env.memStats s with
      | error e => cases e; exact ⟨[.shard s], by simp [fetchLoop, hx]⟩
      | ok stats =>
        obtain ⟨tr, htr⟩ := ih h
        exact ⟨.shard s :: tr, by simp [fetchLoop, hx, htr]⟩

/-- Every entry of a successfully fetched stats map is exactly what the
corresponding shard fetch returned. -/
theorem fetchLoop_mem (env : Env) :
    ∀ l m tr, fetchLoop env l = (.ok m, tr) →
      ∀ e ∈ m, env.memStats e.1 = .ok e.2 := by
  intro l
  induction l with
  | nil =>
    intro m tr h e he
    simp only [fetchLoop] at h
    cases h
    simp at he
  | cons s rest ih =>
    intro m tr h e he
    simp only [fetchLoop] at h
    cases hx : env.memStats s with
    | error er => rw [hx] at h; cases h
    | ok stats =>
      rw [hx] at h
      cases hr : fetchLoop env rest with
      | mk r tr2 =>
        rw [hr] at h
        cases r with
        | error er => cases h
        | ok m2 =>
          cases h
          rcases List.mem_cons.mp he with rfl | hmem
          · exact hx
          · exact ih m2 tr2 hr e hmem

/-- The fetch loop stops at the first failing shard: it attempts exactly
the shards before the failure plus the failing one, in order. -/
theorem fetchLoop_seq (env : Env) :
    ∀ (pre : List String) (sBad : String) (post : List String),
      (∀ s ∈ pre, isOkB (env.memStats s) = true) →
      env.memStats sBad = .error () →
      fetchLoop env (pre ++ sBad :: post) =
        (.error (), pre.map Target.shard ++ [Target.shard sBad]) := by
  intro pre
  induction pre with
  | nil => intro sBad post _ hbad; simp [fetchLoop, hbad]
  | cons p pre ih =>
    intro sBad post hok hbad
    obtain ⟨stats, hp⟩ := isOkB_ok (hok p (List.mem_cons_self p pre))
    have hrec := ih sBad post (fun s hs => hok s (List.mem_cons_of_mem p hs)) hbad
    simp [fetchLoop, hp, hrec]

/-! Preservation lemmas: each projection step touches only its own gauge
families. -/

theorem applyShardStats_cpuShard (sh : String) (stats : Stats) (st : Store) :
    (applyShardStats sh stats st).cpuShard = st.cpuShard := by
  simp only [applyShardStats]
  refine foldl_pres _ _ ?_ _ _
  intro a b
  rfl

theorem applyShardStats_resources (sh : String) (stats : Stats) (st : Store) :
    (applyShardStats sh stats st).resources = st.resources := by
  simp only [applyShardStats]
  refine foldl_pres _ _ ?_ _ _
  intro a b
  rfl

theorem applyShardStats_marketOrders (sh : String) (stats : Stats) (st : Store) :
    (applyShardStats sh stats st).marketOrders = st.marketOrders := by
  simp only [applyShardStats]
  refine foldl_pres _ _ ?_ _ _
  intro a b
  rfl

theorem applyShardStats_durObs (sh : String) (stats : Stats) (st : Store) :
    (applyShardStats sh stats st).durObs = st.durObs := by
  simp only [applyShardStats]
  refine foldl_pres _ _ ?_ _ _
  intro a b
  rfl

theorem populateOrders_cpuShard (o : MarketOrdersResponse) (st : Store) :
    (populateOrders o st).cpuShard = st.cpuShard := by
  simp only [populateOrders]
  refine foldl_pres _ _ ?_ _ _
  intro a b
  refine foldl_pres _ _ ?_ _ _
  intro a2 b2
  rfl

theorem populateOrders_resources (o : MarketOrdersResponse) (st : Store) :
    (populateOrders o st).resources = st.resources := by
  simp only [populateOrders]
  refine foldl_pres _ _ ?_ _ _
  intro a b
  refine foldl_pres _ _ ?_ _ _
  intro a2 b2
  rfl

theorem populateOrders_rcl (o : MarketOrdersResponse) (st : Store) :
    (populateOrders o st).rcl = st.rcl := by
  simp only [populateOrders]
  refine foldl_pres _ _ ?_ _ _
  intro a b
  refine foldl_pres _ _ ?_ _ _
  intro a2 b2
  rfl

theorem populateOrders_energy (o : MarketOrdersResponse) (st : Store) :
    (populateOrders o st).energy = st.energy := by
  simp only [populateOrders]
  refine foldl_pres _ _ ?_ _ _
  intro a b
  refine foldl_pres _ _ ?_ _ _
  intro a2 b2
  rfl

theorem populateOrders_creeps (o : MarketOrdersResponse) (st : Store) :
    (populateOrders o st).creeps = st.creeps := by
  simp only [populateOrders]
  refine foldl_pres _ _ ?_ _ _
  intro a b
  refine foldl_pres _ _ ?_ _ _
  intro a2 b2
  rfl

theorem populateOrders_structures (o : MarketOrdersResponse) (st : Store) :
    (populateOrders o st).structures = st.structures := by
  simp only [populateOrders]
  refine foldl_pres _ _ ?_ _ _
  intro a b
  refine foldl_pres _ _ ?_ _ _
  intro a2 b2
  rfl

theorem populateOrders_storage (o : MarketOrdersResponse) (st : Store) :
    (populateOrders o st).storage = st.storage := by
  simp only [populateOrders]
  refine foldl_pres _ _ ?_ _ _
  intro a b
  refine foldl_pres _ _ ?_ _ _
  intro a2 b2
  rfl

theorem populateOrders_durObs (o : MarketOrdersResponse) (st : Store) :
    (populateOrders o st).durObs = st.durObs := by
  simp only [populateOrders]
  refine foldl_pres _ _ ?_ _ _
  intro a b
  refine foldl_pres _ _ ?_ _ _
  intro a2 b2
  rfl

theorem populateShards_cpuShard (shards : List String)
    (m : List (String × Stats)) (st : Store) :
    (populateShards shards m st).cpuShard = st.cpuShard := by
  simp only [populateShards]
  refine foldl_pres _ _ ?_ _ _
  intro a b
  exact applyShardStats_cpuShard b (lookupStats m b) a

theorem populateShards_resources (shards : List String)
    (m : List (String × Stats)) (st : Store) :
    (populateShards shards m st).resources = st.resources := by
  simp only [populateShards]
  refine foldl_pres _ _ ?_ _ _
  intro a b
  exact applyShardStats_resources b (lookupStats m b) a

theorem populateShards_marketOrders (shards : List String)
    (m : List (String × Stats)) (st : Store) :
    (populateShards shards m st).marketOrders = st.marketOrders := by
  simp only [populateShards]
  refine foldl_pres _ _ ?_ _ _
  intro a b
  exact applyShardStats_marketOrders b (lookupStats m b) a

theorem populateShards_durObs (shards : List String)
    (m : List (String × Stats)) (st : Store) :
    (populateShards shards m st).durObs = st.durObs := by
  simp only [populateShards]
  refine foldl_pres _ _ ?_ _ _
  intro a b
  exact applyShardStats_durObs b (lookupStats m b) a


theorem gset_nil (ls : Labels) (v : ℚ) : gset [] ls v = [(ls, v)] := rfl

theorem gset_cons_ne {l : Labels} {w : ℚ} {g : Gauge} {ls : Labels} {v : ℚ}
    (h : l ≠ ls) : gset ((l, w) :: g) ls v = (l, w) :: gset g ls v := by
  simp [gset, List.filter_cons, h]

theorem orderLabels_injOn {sh : String} {o : MarketOrder} {m1 m2 : String}
    (h : orderLabels sh o m1 = orderLabels sh o m2) : m1 = m2 := by
  simpa [orderLabels] using h

theorem orderLabels_ne (sh : String) (o : MarketOrder) {m1 m2 : String}
    (h : m1 ≠ m2) : orderLabels sh o m1 ≠ orderLabels sh o m2 :=
  fun he => h (orderLabels_injOn he)

theorem mem_applyOrder {sh : String} {o : MarketOrder} {st : Store}
    {e : Labels × ℚ} (he : e ∈ (applyOrder sh o st).marketOrders) :
    e ∈ st.marketOrders ∨ ∃ m, e.1 = orderLabels sh o m := by
  simp only [applyOrder] at he
  rcases mem_gset he with rfl | he
  · exact Or.inr ⟨"totalAmount", rfl⟩
  rcases mem_gset he with rfl | he
  · exact Or.inr ⟨"remainingAmount", rfl⟩
  rcases mem_gset he with rfl | he
  · exact Or.inr ⟨"amount", rfl⟩
  rcases mem_gset he with rfl | he
  · exact Or.inr ⟨"price", rfl⟩
  exact Or.inl he

theorem mem_populateOrders {o : MarketOrdersResponse} {st : Store} :
    ∀ e ∈ (populateOrders o st).marketOrders,
      e ∈ st.marketOrders ∨
        ∃ q ∈ o.shards, ∃ ord ∈ q.2, ∃ m, e.1 = orderLabels q.1 ord m := by
  simp only [populateOrders]
  refine foldl_inv (fun s : Store => ∀ e ∈ s.marketOrders,
    e ∈ st.marketOrders ∨
      ∃ q ∈ o.shards, ∃ ord ∈ q.2, ∃ m, e.1 = orderLabels q.1 ord m)
    o.shards _ ?_ st ?_
  · intro a b hb ha
    refine foldl_inv (fun s : Store => ∀ e ∈ s.marketOrders,
      e ∈ st.marketOrders ∨
        ∃ q ∈ o.shards, ∃ ord ∈ q.2, ∃ m, e.1 = orderLabels q.1 ord m)
      b.2 _ ?_ a ha
    intro a2 ord hord ha2 e2 he2
    rcases mem_applyOrder he2 with h1 | ⟨mtr, hm⟩
    · exact ha2 e2 h1
    · exact Or.inr ⟨b, hb, ord, hord, mtr, hm⟩
  · intro e he
    exact Or.inl he


theorem mem_roomTypeLabels {q : String × String} {sh n t : String}
    (h : q ∈ roomTypeLabels sh n t) :
    q = ("shard", sh) ∨ q = ("room", n) ∨ q = ("type", t) := by
  simpa [roomTypeLabels] using h

theorem room_label_of_mem {rn sh n t : String}
    (h : ("room", rn) ∈ roomTypeLabels sh n t) : rn = n := by
  rcases mem_roomTypeLabels h with h | h | h
  · exact absurd (show "room" = "shard" from congrArg Prod.fst h) (by decide)
  · exact congrArg Prod.snd h
  · exact absurd (show "room" = "type" from congrArg Prod.fst h) (by decide)

theorem room_label_of_mem_creeps {rn sh n : String}
    (h : ("room", rn) ∈ ([("shard", sh), ("room", n)] : Labels)) : rn = n := by
  rcases List.mem_cons.mp h with h | h
  · exact absurd (show "room" = "shard" from congrArg Prod.fst h) (by decide)
  · exact congrArg Prod.snd (List.mem_singleton.mp h)

theorem applyRoom_noRoom {sh n : String} {room : Room} {st : Store}
    {rn : String} (hne : n ≠ rn) (h : NoRoom rn st) :
    NoRoom rn (applyRoom sh n room st) := by
  obtain ⟨h1, h2, h3, h4, h5⟩ := h
  refine ⟨?_, ?_, ?_, ?_, ?_⟩
  · intro e he hq
    simp only [applyRoom] at he
    rcases mem_gset he with rfl | he
    · exact hne (room_label_of_mem hq).symm
    rcases mem_gset he with rfl | he
    · exact hne (room_label_of_mem hq).symm
    rcases mem_gset he with rfl | he
    · exact hne (room_label_of_mem hq).symm
    exact h1 e he hq
  · intro e he hq
    simp only [applyRoom] at he
    rcases mem_gset he with rfl | he
    · exact hne (room_label_of_mem hq).symm
    rcases mem_gset he with rfl | he
    · exact hne (room_label_of_mem hq).symm
    exact h2 e he hq
  · intro e he hq
    simp only [applyRoom] at he
    rcases mem_gset he with rfl | he
    · exact hne (room_label_of_mem_creeps hq).symm
    exact h3 e he hq
  · intro e he hq
    simp only [applyRoom] at he
    rcases mem_foldl_gset _ _ room.structures st.structures e he with he | ⟨b, hb, rfl⟩
    · exact h4 e he hq
    · exact hne (room_label_of_mem hq).symm
  · intro e he hq
    simp only [applyRoom] at he
    rcases mem_foldl_gset _ _ room.storage st.storage e he with he | ⟨b, hb, rfl⟩
    · exact h5 e he hq
    · exact hne (room_label_of_mem hq).symm

theorem applyShardStats_noRoom {sh : String} {stats : Stats} {st : Store}
    {rn : String} (hrooms : ∀ p ∈ stats.rooms, p.1 ≠ rn) (h : NoRoom rn st) :
    NoRoom rn (applyShardStats sh stats st) := by
  simp only [applyShardStats]
  refine foldl_inv (NoRoom rn) stats.rooms _ ?_ _ ?_
  · intro a b hb ha
    exact applyRoom_noRoom (hrooms b hb) ha
  · exact h

theorem populateShards_noRoom {shards : List String}
    {m : List (String × Stats)} {st : Store} {rn : String}
    (hsub : ∀ sh ∈ shards, ∀ p ∈ (lookupStats m sh).rooms, p.1 ≠ rn)
    (h : NoRoom rn st) : NoRoom rn (populateShards shards m st) := by
  simp only [populateShards]
  refine foldl_inv (NoRoom rn) shards _ ?_ _ h
  intro a b hb ha
  exact applyShardStats_noRoom (hsub b hb) ha

theorem lookupStats_rooms_sub (env : Env) (l : List String)
    (m : List (String × Stats)) (tr : List Target)
    (hfl : fetchLoop env l = (.ok m, tr)) (s : String) :
    ∀ p ∈ (lookupStats m s).rooms, p.1 ∈ okRooms (env.memStats s) := by
  intro p hp
  unfold lookupStats at hp
  cases hf : m.find? (fun e => e.1 = s) with
  | none =>
    rw [hf] at hp
    simp [Stats.zero] at hp
  | some e =>
    rw [hf] at hp
    have hmem := List.mem_of_find?_eq_some hf
    have hkey : e.1 = s := by
      have hpa := List.find?_some hf
      simpa using hpa
    have hms := fetchLoop_mem env l m tr hfl e hmem
    rw [hkey] at hms
    rw [hms]
    simpa [okRooms] using List.mem_map_of_mem Prod.fst hp

end Seg

/-! ## Claim theorems for the collection cycle of the first variant -/

/-- C3: in any cycle in which some fetch or decode step fails (account
summary, market orders, or any configured shard fetch), no gauge is reset
and no gauge is written: the store after the cycle equals the store before
it. -/
theorem c3_error_atomicity (env : Seg.Env) (st : Seg.Store)
    (h : env.okB = false) : (Seg.updateStats env st).1 = st := by
  unfold Seg.updateStats
  cases hA : env.authMe with
  | error e => rfl
  | ok a =>
    cases hO : env.orders with
    | error e => rfl
    | ok o =>
      have hS : env.shards.all (fun s => Seg.isOkB (env.memStats s)) = false := by
        unfold Seg.Env.okB at h
        rw [hA, hO] at h
        simpa [Seg.isOkB] using h
      obtain ⟨tr, htr⟩ := Seg.fetchLoop_err env env.shards hS
      rw [htr]

/-- C3 witness: a concrete cycle whose single shard fetch fails leaves a
concrete nonempty store untouched. -/
theorem c3_error_atomicity_witness :
    ({ authMe := .ok { money := 1, cpuShard := [], resources := [] }
       orders := .ok { shards := [] }
       shards := ["shard0"]
       memStats := fun _ => .error () } : Seg.Env).okB = false ∧
    (Seg.updateStats
      { authMe := .ok { money := 1, cpuShard := [], resources := [] }
        orders := .ok { shards := [] }
        shards := ["shard0"]
        memStats := fun _ => .error () }
      { Seg.Store.empty with tick := [([("shard", "s")], 3)] }).1 =
      { Seg.Store.empty with tick := [([("shard", "s")], 3)] } :=
  ⟨by decide, c3_error_atomicity _ _ (by decide)⟩

/-- C9: the processing-time histogram records an observation exactly when
the whole cycle succeeds; a cycle aborted by any fetch or decode error
records none. -/
theorem c9_duration_iff_success (env : Seg.Env) (st : Seg.Store) :
    (Seg.updateStats env st).1.durObs =
      if env.okB then st.durObs + 1 else st.durObs := by
  cases hA : env.authMe with
  | error e =>
    have hok : env.okB = false := by
      unfold Seg.Env.okB
      rw [hA]
      rfl
    simp [Seg.updateStats, hA, hok]
  | ok a =>
    cases hO : env.orders with
    | error e =>
      have hok : env.okB = false := by
        unfold Seg.Env.okB
        rw [hA, hO]
        rfl
      simp [Seg.updateStats, hA, hO, hok]
    | ok o =>
      have hok : env.okB =
          env.shards.all (fun s => Seg.isOkB (env.memStats s)) := by
        unfold Seg.Env.okB
        rw [hA, hO]
        rfl
      cases hS : env.shards.all (fun s => Seg.isOkB (env.memStats s)) with
      | false =>
        obtain ⟨tr, htr⟩ := Seg.fetchLoop_err env env.shards hS
        rw [hok, hS]
        simp [Seg.updateStats, hA, hO, htr]
      | true =>
        obtain ⟨m, tr, htr⟩ := Seg.fetchLoop_ok env env.shards hS
        rw [hok, hS]
        simp only [Seg.updateStats, hA, hO, htr, if_true]
        rw [Seg.populateShards_durObs, Seg.populateOrders_durObs]
        rfl

/-- C10: the market-order projection never reads the active flag: changing
only the active flag of an order produces identical writes. -/
theorem c10_active_irrelevant (sh : String) (o : Seg.MarketOrder) (b : Bool)
    (st : Seg.Store) :
    Seg.applyOrder sh { o with active := b } st = Seg.applyOrder sh o st := rfl

/-- C7: projecting one market order into a freshly reset market-orders
gauge produces exactly four series, one per metric in price, amount,
remainingAmount, totalAmount, each labeled with the order's shard, room,
resource type and order type and carrying the corresponding field value. -/
theorem c7_order_projection (sh : String) (o : Seg.MarketOrder)
    (st : Seg.Store) (h : st.marketOrders = []) :
    (Seg.applyOrder sh o st).marketOrders =
      [(Seg.orderLabels sh o "price", o.price),
        (Seg.orderLabels sh o "amount", o.amount),
        (Seg.orderLabels sh o "remainingAmount", o.remainingAmount),
        (Seg.orderLabels sh o "totalAmount", o.totalAmount)] ∧
    (Seg.applyOrder sh o st).marketOrders.length = 4 := by
  have h1 := Seg.orderLabels_ne sh o (show "price" ≠ "amount" by decide)
  have h2 := Seg.orderLabels_ne sh o (show "price" ≠ "remainingAmount" by decide)
  have h3 := Seg.orderLabels_ne sh o (show "price" ≠ "totalAmount" by decide)
  have h4 := Seg.orderLabels_ne sh o (show "amount" ≠ "remainingAmount" by decide)
  have h5 := Seg.orderLabels_ne sh o (show "amount" ≠ "totalAmount" by decide)
  have h6 := Seg.orderLabels_ne sh o (show "remainingAmount" ≠ "totalAmount" by decide)
  have heq : (Seg.applyOrder sh o st).marketOrders =
      [(Seg.orderLabels sh o "price", o.price),
        (Seg.orderLabels sh o "amount", o.amount),
        (Seg.orderLabels sh o "remainingAmount", o.remainingAmount),
        (Seg.orderLabels sh o "totalAmount", o.totalAmount)] := by
    simp only [Seg.applyOrder, h, Seg.gset_nil, Seg.gset_cons_ne h1,
      Seg.gset_cons_ne h2, Seg.gset_cons_ne h3, Seg.gset_cons_ne h4,
      Seg.gset_cons_ne h5, Seg.gset_cons_ne h6]
  exact ⟨heq, by rw [heq]; rfl⟩

/-- C7 witness: the four writes of one concrete order. -/
theorem c7_order_projection_witness :
    (Seg.Store.empty.marketOrders = []) ∧
    ((Seg.applyOrder "shard0"
      { active := true, type := "sell", amount := 100, remainingAmount := 40,
        resourceType := "energy", price := 3, totalAmount := 140,
        roomName := "W1N1" } Seg.Store.empty).marketOrders =
      [(Seg.orderLabels "shard0"
          { active := true, type := "sell", amount := 100, remainingAmount := 40,
            resourceType := "energy", price := 3, totalAmount := 140,
            roomName := "W1N1" } "price", 3),
        (Seg.orderLabels "shard0"
          { active := true, type := "sell", amount := 100, remainingAmount := 40,
            resourceType := "energy", price := 3, totalAmount := 140,
            roomName := "W1N1" } "amount", 100),
        (Seg.orderLabels "shard0"
          { active := true, type := "sell", amount := 100, remainingAmount := 40,
            resourceType := "energy", price := 3, totalAmount := 140,
            roomName := "W1N1" } "remainingAmount", 40),
        (Seg.orderLabels "shard0"
          { active := true, type := "sell", amount := 100, remainingAmount := 40,
            resourceType := "energy", price := 3, totalAmount := 140,
            roomName := "W1N1" } "totalAmount", 140)] ∧
      (Seg.applyOrder "shard0"
        { active := true, type := "sell", amount := 100, remainingAmount := 40,
          resourceType := "energy", price := 3, totalAmount := 140,
          roomName := "W1N1" } Seg.Store.empty).marketOrders.length = 4) :=
  ⟨rfl, c7_order_projection "shard0" _ Seg.Store.empty rfl⟩

/-- C1 counterexample: a fully successful cycle leaves a stale tick series
for shard ghost in place, although ghost occurs nowhere in the cycle's
fetched state, so the tick gauge is not reset before repopulation. -/
theorem c1_counterexample :
    envC1.okB = true ∧
    (Seg.updateStats envC1 stC1).1.tick =
      [([("shard", "ghost")], 5), ([("shard", "shard0")], 0)] :=
  ⟨by decide, by decide⟩

/-- C1 (amended): the gauges that are reset before repopulation are
cpu_shard, resources and market_orders (together with the room-scoped
gauges); after a successful cycle these three contain only series produced
from the current cycle's account summary and market orders.  The per-shard
counters tick, ms, global_reset_tick, global_reset_ms, cpu, gcl, gpl are
not reset, they are only overwritten per configured shard. -/
theorem c1_account_families_reset (env : Seg.Env) (st : Seg.Store)
    (a : Seg.AuthMeResponse) (o : Seg.MarketOrdersResponse)
    (hA : env.authMe = .ok a) (hO : env.orders = .ok o)
    (hS : env.shards.all (fun s => Seg.isOkB (env.memStats s)) = true) :
    (∀ e ∈ (Seg.updateStats env st).1.cpuShard,
        ∃ p ∈ a.cpuShard, e = ([("shard", p.1)], p.2)) ∧
    (∀ e ∈ (Seg.updateStats env st).1.resources,
        e = (Seg.typeLabels "intershard" "money", a.money) ∨
          ∃ p ∈ a.resources, e = (Seg.typeLabels "intershard" p.1, p.2)) ∧
    (∀ e ∈ (Seg.updateStats env st).1.marketOrders,
        ∃ q ∈ o.shards, ∃ ord ∈ q.2, ∃ m, e.1 = Seg.orderLabels q.1 ord m) := by
  obtain ⟨mm, tr, htr⟩ := Seg.fetchLoop_ok env env.shards hS
  refine ⟨?_, ?_, ?_⟩
  · intro e he
    simp only [Seg.updateStats, hA, hO, htr] at he
    rw [Seg.populateShards_cpuShard, Seg.populateOrders_cpuShard] at he
    simp only [Seg.populateAuthMe, Seg.resetGauges] at he
    rcases mem_foldl_gset _ _ a.cpuShard [] e he with he | ⟨b, hb, rfl⟩
    · simp at he
    · exact ⟨b, hb, rfl⟩
  · intro e he
    simp only [Seg.updateStats, hA, hO, htr] at he
    rw [Seg.populateShards_resources, Seg.populateOrders_resources] at he
    simp only [Seg.populateAuthMe, Seg.resetGauges] at he
    rcases mem_foldl_gset _ _ a.resources _ e he with he | ⟨b, hb, rfl⟩
    · rcases mem_gset he with rfl | he
      · exact Or.inl rfl
      · simp at he
    · exact Or.inr ⟨b, hb, rfl⟩
  · intro e he
    simp only [Seg.updateStats, hA, hO, htr] at he
    rw [Seg.populateShards_marketOrders] at he
    rcases Seg.mem_populateOrders e he with he | hgen
    · have hmo : (Seg.populateAuthMe a (Seg.resetGauges st)).marketOrders = [] := rfl
      rw [hmo] at he
      simp at he
    · exact hgen

/-- C1 amended witness: the reset families of a concrete successful
cycle. -/
theorem c1_account_families_reset_witness :
    envC1.authMe = .ok authC1 ∧ envC1.orders = .ok ordC1 ∧
    envC1.shards.all (fun s => Seg.isOkB (envC1.memStats s)) = true ∧
    ((∀ e ∈ (Seg.updateStats envC1 stC1).1.cpuShard,
        ∃ p ∈ authC1.cpuShard, e = ([("shard", p.1)], p.2)) ∧
      (∀ e ∈ (Seg.updateStats envC1 stC1).1.resources,
        e = (Seg.typeLabels "intershard" "money", authC1.money) ∨
          ∃ p ∈ authC1.resources, e = (Seg.typeLabels "intershard" p.1, p.2)) ∧
      (∀ e ∈ (Seg.updateStats envC1 stC1).1.marketOrders,
        ∃ q ∈ ordC1.shards, ∃ ord ∈ q.2, ∃ m,
          e.1 = Seg.orderLabels q.1 ord m)) :=
  ⟨rfl, rfl, by decide,
    c1_account_families_reset envC1 stC1 authC1 ordC1 rfl rfl (by decide)⟩

/-- C2: after any successful cycle, a room name absent from the rooms map
of every configured shard's fetched stats has no series in the rcl,
energy, creeps, structures or storage gauges, whatever the store held
before the cycle. -/
theorem c2_room_eviction (env : Seg.Env) (st : Seg.Store)
    (a : Seg.AuthMeResponse) (o : Seg.MarketOrdersResponse)
    (hA : env.authMe = .ok a) (hO : env.orders = .ok o)
    (hS : env.shards.all (fun s => Seg.isOkB (env.memStats s)) = true)
    (rn : String)
    (habs : ∀ s ∈ env.shards, rn ∉ Seg.okRooms (env.memStats s)) :
    Seg.NoRoom rn (Seg.updateStats env st).1 := by
  obtain ⟨mm, tr, htr⟩ := Seg.fetchLoop_ok env env.shards hS
  simp only [Seg.updateStats, hA, hO, htr]
  have base : Seg.NoRoom rn
      (Seg.populateOrders o (Seg.populateAuthMe a (Seg.resetGauges st))) := by
    refine ⟨?_, ?_, ?_, ?_, ?_⟩
    · intro e he
      rw [Seg.populateOrders_rcl] at he
      simp [Seg.populateAuthMe, Seg.resetGauges] at he
    · intro e he
      rw [Seg.populateOrders_energy] at he
      simp [Seg.populateAuthMe, Seg.resetGauges] at he
    · intro e he
      rw [Seg.populateOrders_creeps] at he
      simp [Seg.populateAuthMe, Seg.resetGauges] at he
    · intro e he
      rw [Seg.populateOrders_structures] at he
      simp [Seg.populateAuthMe, Seg.resetGauges] at he
    · intro e he
      rw [Seg.populateOrders_storage] at he
      simp [Seg.populateAuthMe, Seg.resetGauges] at he
  have hsub : ∀ sh ∈ env.shards, ∀ p ∈ (Seg.lookupStats mm sh).rooms,
      p.1 ≠ rn := by
    intro sh hsh p hp heq
    have hnm := Seg.lookupStats_rooms_sub env env.shards mm tr htr sh p hp
    rw [heq] at hnm
    exact habs sh hsh hnm
  exact Seg.populateShards_noRoom hsub base

/-- C2 witness: a shard that previously reported room W1N1 reports zero
rooms; after the cycle no series of the five room-scoped gauges carries
the label room = W1N1, although the store held such series before. -/
theorem c2_room_eviction_witness :
    envC1.authMe = .ok authC1 ∧ envC1.orders = .ok ordC1 ∧
    envC1.shards.all (fun s => Seg.isOkB (envC1.memStats s)) = true ∧
    (∀ s ∈ envC1.shards, "W1N1" ∉ Seg.okRooms (envC1.memStats s)) ∧
    stC2.rcl ≠ [] ∧
    Seg.NoRoom "W1N1" (Seg.updateStats envC1 stC2).1 :=
  ⟨rfl, rfl, by decide, by decide, by decide,
    c2_room_eviction envC1 stC2 authC1 ordC1 rfl rfl (by decide) "W1N1"
      (by decide)⟩

/-- C8 counterexample: when the fetch of shard s0 fails, the sibling fetch
of configured shard s1 is not performed in that cycle: the attempted
fetch-target trace ends at s0. -/
theorem c8_counterexample :
    (Seg.updateStats envC8 Seg.Store.empty).2 =
      [.authMe, .orders, .shard "s0"] ∧
    Seg.Target.shard "s1" ∉ (Seg.updateStats envC8 Seg.Store.empty).2 ∧
    "s1" ∈ envC8.shards :=
  ⟨by decide, by decide, by decide⟩

/-- C8 (amended): a failing fetch or decode aborts the whole cycle: the
store is left unchanged and no fetch target after the failing one (in the
fixed order account summary, market orders, shards in configured order) is
attempted. -/
theorem c8_abort_on_failure (env : Seg.Env) (st : Seg.Store)
    (a : Seg.AuthMeResponse) (o : Seg.MarketOrdersResponse)
    (hA : env.authMe = .ok a) (hO : env.orders = .ok o)
    (pre : List String) (sBad : String) (post : List String)
    (hsh : env.shards = pre ++ sBad :: post)
    (hok : ∀ s ∈ pre, Seg.isOkB (env.memStats s) = true)
    (hbad : env.memStats sBad = .error ()) :
    Seg.updateStats env st =
      (st, [.authMe, .orders] ++ pre.map Seg.Target.shard ++
        [Seg.Target.shard sBad]) := by
  have hfl := Seg.fetchLoop_seq env pre sBad post hok hbad
  rw [← hsh] at hfl
  simp [Seg.updateStats, hA, hO, hfl]

/-- C8 amended witness: the concrete aborted cycle of the counterexample
environment, via the amended theorem. -/
theorem c8_abort_on_failure_witness :
    envC8.authMe = .ok authC1 ∧ envC8.orders = .ok ordC1 ∧
    envC8.shards = [] ++ "s0" :: ["s1"] ∧
    envC8.memStats "s0" = .error () ∧
    Seg.updateStats envC8 Seg.Store.empty =
      (Seg.Store.empty, [.authMe, .orders] ++
        ([] : List String).map Seg.Target.shard ++ [Seg.Target.shard "s0"]) :=
  ⟨rfl, rfl, rfl, by simp [envC8],
    c8_abort_on_failure envC8 Seg.Store.empty authC1 ordC1 rfl rfl
      [] "s0" ["s1"] rfl (by decide) (by simp [envC8])⟩

/-! ## Base64 and gzip roundtrips -/

theorem b64Char_facts (i : Nat) :
    42 < b64Char i ∧ b64Char i ≠ 61 ∧ b64Char i ≠ 13 ∧ b64Char i ≠ 10 := by
  unfold b64Char
  split_ifs <;> omega

theorem b64Index_b64Char : ∀ i, i < 64 → b64Index (b64Char i) = some i := by
  decide

theorem mem_base64Encode_gt :
    ∀ (n : Nat) (bs : Bytes), bs.length ≤ n → ∀ c ∈ base64Encode bs, 42 < c := by
  intro n
  induction n with
  | zero =>
    intro bs hl c hc
    cases bs with
    | nil => simp [base64Encode] at hc
    | cons x xs => simp at hl
  | succ n ih =>
    intro bs hl c hc
    match bs with
    | [] => simp [base64Encode] at hc
    | [b0] =>
      simp only [base64Encode, List.mem_cons] at hc
      rcases hc with rfl | rfl | rfl | rfl | hc
      · exact (b64Char_facts _).1
      · exact (b64Char_facts _).1
      · omega
      · omega
      · simp at hc
    | [b0, b1] =>
      simp only [base64Encode, List.mem_cons] at hc
      rcases hc with rfl | rfl | rfl | rfl | hc
      · exact (b64Char_facts _).1
      · exact (b64Char_facts _).1
      · exact (b64Char_facts _).1
      · omega
      · simp at hc
    | b0 :: b1 :: b2 :: rest =>
      simp only [base64Encode, List.mem_cons] at hc
      rcases hc with rfl | rfl | rfl | rfl | hc
      · exact (b64Char_facts _).1
      · exact (b64Char_facts _).1
      · exact (b64Char_facts _).1
      · exact (b64Char_facts _).1
      · exact ih rest (by simp at hl; omega) c hc

theorem base64Encode_filter (bs : Bytes) :
    (base64Encode bs).filter (fun c => c ≠ 13 ∧ c ≠ 10) = base64Encode bs := by
  apply List.filter_eq_self.mpr
  intro c hc
  have := mem_base64Encode_gt bs.length bs le_rfl c hc
  simp only [decide_eq_true_eq]
  omega

theorem base64DecodeAux_encode :
    ∀ (n : Nat) (bs : Bytes), bs.length ≤ n → (∀ b ∈ bs, b < 256) →
      base64DecodeAux (base64Encode bs) = some bs := by
  intro n
  induction n with
  | zero =>
    intro bs hl _
    cases bs with
    | nil => rfl
    | cons x xs => simp at hl
  | succ n ih =>
    intro bs hl hw
    match bs with
    | [] => rfl
    | [b0] =>
      have h0 : b0 < 256 := hw b0 (by simp)
      simp only [base64Encode, base64DecodeAux]
      rw [b64Index_b64Char _ (by omega), b64Index_b64Char _ (by omega)]
      simp
      omega
    | [b0, b1] =>
      have h0 : b0 < 256 := hw b0 (by simp)
      have h1 : b1 < 256 := hw b1 (by simp)
      simp only [base64Encode, base64DecodeAux]
      rw [b64Index_b64Char _ (by omega), b64Index_b64Char _ (by omega),
        b64Index_b64Char (b1 % 16 * 4) (by omega)]
      simp [(b64Char_facts (b1 % 16 * 4)).2.1]
      omega
    | b0 :: b1 :: b2 :: rest =>
      have h0 : b0 < 256 := hw b0 (by simp)
      have h1 : b1 < 256 := hw b1 (by simp)
      have h2 : b2 < 256 := hw b2 (by simp)
      have hrest : base64DecodeAux (base64Encode rest) = some rest := by
        refine ih rest ?_ ?_
        · simp at hl
          omega
        · intro b hb
          exact hw b (by simp [hb])
      simp only [base64Encode, base64DecodeAux]
      rw [b64Index_b64Char _ (by omega), b64Index_b64Char _ (by omega),
        b64Index_b64Char (b1 % 16 * 4 + b2 / 64) (by omega),
        b64Index_b64Char (b2 % 64) (by omega)]
      simp [(b64Char_facts (b1 % 16 * 4 + b2 / 64)).2.1,
        (b64Char_facts (b2 % 64)).2.1, hrest]
      omega

theorem base64_roundtrip (bs : Bytes) (h : ∀ b ∈ bs, b < 256) :
    base64Decode (base64Encode bs) = some bs := by
  unfold base64Decode
  rw [base64Encode_filter]
  exact base64DecodeAux_encode bs.length bs le_rfl h

theorem deflateStored_length :
    ∀ (n : Nat) (d : Bytes), d.length ≤ n →
      d.length ≤ (deflateStored d).length := by
  intro n
  induction n with
  | zero =>
    intro d hl
    omega
  | succ n ih =>
    intro d hl
    rw [deflateStored.eq_def]
    split_ifs with hle
    · simp only [List.length_cons, List.length_append, le16]
      omega
    · have := ih (d.drop 65535) (by simp; omega)
      simp only [List.length_cons, List.length_append, le16, List.length_take]
      simp only [List.length_drop] at this
      omega

theorem inflate_deflate :
    ∀ (fuel : Nat) (d rest : Bytes), d.length < fuel →
      inflateStored fuel (deflateStored d ++ rest) = some (d, rest) := by
  intro fuel
  induction fuel with
  | zero =>
    intro d rest h
    exact absurd h (Nat.not_lt_zero _)
  | succ fuel ih =>
    intro d rest h
    by_cases hle : d.length ≤ 65535
    · have hdef : deflateStored d =
          1 :: (le16 d.length ++ le16 (65535 - d.length) ++ d) := by
        rw [deflateStored.eq_def, if_pos hle]
      have hlen : d.length % 256 + 256 * (d.length / 256 % 256) = d.length := by
        omega
      rw [hdef]
      simp only [le16, List.cons_append, List.append_assoc, List.nil_append]
      simp only [inflateStored, hlen]
      rw [if_pos ?hc]
      case hc =>
        refine ⟨by decide, by omega, ?_⟩
        simp only [List.length_append]
        omega
      simp [List.take_left, List.drop_left]
    · have hdef : deflateStored d =
          0 :: (le16 65535 ++ le16 0 ++ d.take 65535 ++
            deflateStored (d.drop 65535)) := by
        rw [deflateStored.eq_def, if_neg hle]
      have htk : (d.take 65535).length = 65535 := by
        simp only [List.length_take]
        omega
      rw [hdef, show le16 65535 = [255, 255] from rfl,
        show le16 0 = [0, 0] from rfl]
      simp only [List.cons_append, List.append_assoc, List.nil_append]
      simp only [inflateStored]
      rw [if_pos ?hc2]
      case hc2 =>
        refine ⟨by decide, by decide, ?_⟩
        simp only [List.length_append, htk]
        omega
      have hrec := ih (d.drop 65535) rest (by simp only [List.length_drop]; omega)
      simp [List.take_left' htk, List.drop_left' htk, hrec]

theorem gunzip_gzipCompress (d : Bytes) : gunzip (gzipCompress d) = some d := by
  show gunzip (31 :: 139 :: 8 :: 0 :: 0 :: 0 :: 0 :: 0 :: 0 :: 255 ::
    (deflateStored d ++ le32 (crc32 d) ++ le32 (d.length % 4294967296))) = some d
  simp only [gunzip, List.append_assoc]
  have hfl : d.length <
      (deflateStored d ++ (le32 (crc32 d) ++ le32 (d.length % 4294967296))).length
        + 1 := by
    have := deflateStored_length d.length d le_rfl
    simp only [List.length_append]
    omega
  rw [inflate_deflate _ d _ hfl]
  simp

/-! ## Decimal digit lemmas -/

theorem natDigitsAux_mono :
    ∀ (f1 : Nat), ∀ (f2 n : Nat), n ≤ f1 → n ≤ f2 →
      natDigitsAux f1 n = natDigitsAux f2 n := by
  intro f1
  induction f1 with
  | zero =>
    intro f2 n h1 h2
    have : n = 0 := by omega
    subst this
    cases f2 with
    | zero => rfl
    | succ f2 => simp [natDigitsAux]
  | succ f1 ih =>
    intro f2 n h1 h2
    by_cases hz : n = 0
    · subst hz
      cases f2 with
      | zero => rfl
      | succ f2 => simp [natDigitsAux]
    · cases f2 with
      | zero => omega
      | succ f2 =>
        simp only [natDigitsAux, if_neg hz]
        rw [ih f2 (n / 10) (by omega) (by omega)]

theorem natDigitsAux_digits :
    ∀ (f n : Nat), ∀ d ∈ natDigitsAux f n, isDigit d = true := by
  intro f
  induction f with
  | zero => intro n d hd; simp [natDigitsAux] at hd
  | succ f ih =>
    intro n d hd
    by_cases hz : n = 0
    · subst hz; simp [natDigitsAux] at hd
    · simp only [natDigitsAux, if_neg hz, List.mem_append,
        List.mem_singleton] at hd
      rcases hd with hd | rfl
      · exact ih (n / 10) d hd
      · simp [isDigit]
        omega

theorem natDigits_digits (n : Nat) : ∀ d ∈ natDigits n, isDigit d = true := by
  intro d hd
  unfold natDigits at hd
  split_ifs at hd with hz
  · rcases List.mem_singleton.mp hd with rfl
    decide
  · exact natDigitsAux_digits n n d hd

theorem natDigits_ne_nil (n : Nat) : natDigits n ≠ [] := by
  unfold natDigits
  split_ifs with hz
  · simp
  · cases hn : n with
    | zero => omega
    | succ k =>
      simp only [natDigitsAux, hn]
      rw [if_neg (by omega)]
      simp

theorem digitsVal_append_last (xs : Bytes) (d : Nat) :
    digitsVal (xs ++ [d]) = digitsVal xs * 10 + (d - 48) := by
  simp [digitsVal, List.foldl_append]

theorem digitsVal_natDigitsAux :
    ∀ (f n : Nat), n ≤ f → digitsVal (natDigitsAux f n) = n := by
  intro f
  induction f with
  | zero =>
    intro n h
    have : n = 0 := by omega
    subst this
    rfl
  | succ f ih =>
    intro n h
    by_cases hz : n = 0
    · subst hz; rfl
    · simp only [natDigitsAux, if_neg hz]
      rw [digitsVal_append_last, ih (n / 10) (by omega)]
      omega

theorem digitsVal_natDigits (n : Nat) : digitsVal (natDigits n) = n := by
  unfold natDigits
  split_ifs with hz
  · subst hz; rfl
  · exact digitsVal_natDigitsAux n n le_rfl

theorem digitsVal_replicate (k : Nat) (ds : Bytes) :
    digitsVal (List.replicate k 48 ++ ds) = digitsVal ds := by
  unfold digitsVal
  rw [List.foldl_append]
  congr 1
  induction k with
  | zero => rfl
  | succ k ih => simpa [List.replicate_succ] using ih

theorem takeWhile_append_all {p : Nat → Bool} :
    ∀ (l r : Bytes), (∀ c ∈ l, p c = true) →
      (r = [] ∨ ∃ c rs, r = c :: rs ∧ p c = false) →
      (l ++ r).takeWhile p = l ∧ (l ++ r).dropWhile p = r := by
  intro l
  induction l with
  | nil =>
    intro r _ hr
    rcases hr with rfl | ⟨c, rs, rfl, hc⟩
    · simp
    · simp [List.takeWhile_cons, List.dropWhile_cons, hc]
  | cons x xs ih =>
    intro r hl hr
    have hx := hl x (List.mem_cons_self x xs)
    have := ih r (fun c hc => hl c (List.mem_cons_of_mem x hc)) hr
    simp [List.takeWhile_cons, List.dropWhile_cons, hx, this.1, this.2]

theorem parseDigits_spec (ds r : Bytes) (hne : ds ≠ [])
    (hds : ∀ c ∈ ds, isDigit c = true)
    (hr : r = [] ∨ ∃ c rs, r = c :: rs ∧ isDigit c = false) :
    parseDigits (ds ++ r) = some (ds, r) := by
  obtain ⟨ht, hd⟩ := takeWhile_append_all ds r hds hr
  simp [parseDigits, ht, hd, List.isEmpty_iff, hne]

/-! ## Number roundtrip -/

theorem weakenRest {rest : Bytes}
    (h : rest = [] ∨ ∃ c rs, rest = c :: rs ∧ isDigit c = false ∧ c ≠ 46) :
    rest = [] ∨ ∃ c rs, rest = c :: rs ∧ isDigit c = false := by
  rcases h with h | ⟨c, rs, h1, h2, _⟩
  · exact Or.inl h
  · exact Or.inr ⟨c, rs, h1, h2⟩

theorem parseNumTail_int (n : Nat) (neg : Bool) (rest : Bytes)
    (hrest : rest = [] ∨ ∃ c rs, rest = c :: rs ∧ isDigit c = false ∧ c ≠ 46) :
    parseNumTail neg (natDigits n ++ rest) =
      some (.num (if neg then -(n : Int) else (n : Int)) 0, rest) := by
  unfold parseNumTail
  rw [parseDigits_spec (natDigits n) rest (natDigits_ne_nil n)
    (natDigits_digits n) (weakenRest hrest)]
  rcases hrest with rfl | ⟨c, rs, rfl, hcd, hc46⟩
  · simp [digitsVal_natDigits]
  · simp [hc46, digitsVal_natDigits]

theorem parseNumTail_frac (n s : Nat) (hs : s ≠ 0) (neg : Bool) (rest : Bytes)
    (hrest : rest = [] ∨ ∃ c rs, rest = c :: rs ∧ isDigit c = false ∧ c ≠ 46) :
    parseNumTail neg
      (((List.replicate (s + 1 - (natDigits n).length) 48 ++ natDigits n).take
          ((List.replicate (s + 1 - (natDigits n).length) 48 ++
            natDigits n).length - s) ++
        46 :: (List.replicate (s + 1 - (natDigits n).length) 48 ++
          natDigits n).drop
          ((List.replicate (s + 1 - (natDigits n).length) 48 ++
            natDigits n).length - s)) ++ rest) =
      some (.num (if neg then -(n : Int) else (n : Int)) s, rest) := by
  have hDne := natDigits_ne_nil n
  have hDlen : 1 ≤ (natDigits n).length := by
    cases hnd : natDigits n with
    | nil => exact absurd hnd hDne
    | cons a l => simp
  set pd : Bytes :=
    List.replicate (s + 1 - (natDigits n).length) 48 ++ natDigits n with hpd
  have hpdd : ∀ c ∈ pd, isDigit c = true := by
    intro c hc
    rw [hpd] at hc
    rcases List.mem_append.mp hc with hc | hc
    · rcases List.eq_of_mem_replicate hc with rfl
      decide
    · exact natDigits_digits n c hc
  have hplen : s + 1 ≤ pd.length := by
    rw [hpd]
    simp only [List.length_append, List.length_replicate]
    omega
  have hd1ne : pd.take (pd.length - s) ≠ [] := by
    have : (pd.take (pd.length - s)).length = pd.length - s := by
      simp only [List.length_take]
      omega
    intro hnil
    rw [hnil] at this
    simp at this
    omega
  have hd1d : ∀ c ∈ pd.take (pd.length - s), isDigit c = true :=
    fun c hc => hpdd c (List.mem_of_mem_take hc)
  have hfrne : pd.drop (pd.length - s) ≠ [] := by
    have : (pd.drop (pd.length - s)).length = s := by
      simp only [List.length_drop]
      omega
    intro hnil
    rw [hnil] at this
    simp at this
    omega
  have hfrd : ∀ c ∈ pd.drop (pd.length - s), isDigit c = true :=
    fun c hc => hpdd c (List.mem_of_mem_drop hc)
  have hfrlen : (pd.drop (pd.length - s)).length = s := by
    simp only [List.length_drop]
    omega
  unfold parseNumTail
  have hassoc :
      (pd.take (pd.length - s) ++ 46 :: pd.drop (pd.length - s)) ++ rest =
        pd.take (pd.length - s) ++
          (46 :: (pd.drop (pd.length - s) ++ rest)) := by
    simp
  rw [hassoc, parseDigits_spec (pd.take (pd.length - s))
    (46 :: (pd.drop (pd.length - s) ++ rest)) hd1ne hd1d
    (Or.inr ⟨46, pd.drop (pd.length - s) ++ rest, rfl, by decide⟩)]
  simp only [reduceIte]
  rw [parseDigits_spec (pd.drop (pd.length - s)) rest hfrne hfrd
    (weakenRest hrest)]
  have hval : digitsVal pd = n := by
    rw [hpd, digitsVal_replicate, digitsVal_natDigits]
  simp [List.take_append_drop, hval, hfrlen]

theorem parseNumBody_eq_tail (c : Nat) (cs rest : Bytes)
    (hc : isDigit c = true) :
    parseNumBody ((c :: cs) ++ rest) = parseNumTail false ((c :: cs) ++ rest) := by
  simp only [parseNumBody, List.cons_append]
  rw [if_neg]
  simp only [isDigit, Bool.and_eq_true, decide_eq_true_eq] at hc
  omega

theorem parseNumBody_neg45 (r : Bytes) :
    parseNumBody (45 :: r) = parseNumTail true r := by
  simp [parseNumBody]

theorem parseNumBody_renderNum (m : Int) (s : Nat) (rest : Bytes)
    (hrest : rest = [] ∨ ∃ c rs, rest = c :: rs ∧ isDigit c = false ∧ c ≠ 46) :
    parseNumBody (renderNum m s ++ rest) = some (.num m s, rest) := by
  have hmmn : -(m.natAbs : Int) = m ∨ ((m.natAbs : Int)) = m := by omega
  by_cases hs : s = 0
  · subst hs
    by_cases hneg : m < 0
    · have hdef : renderNum m 0 = 45 :: natDigits m.natAbs := by
        simp [renderNum, hneg]
      rw [hdef, List.cons_append, parseNumBody_neg45,
        parseNumTail_int m.natAbs true rest hrest]
      simp only [reduceIte]
      rw [show -(m.natAbs : Int) = m by omega]
    · have hdef : renderNum m 0 = natDigits m.natAbs := by
        simp [renderNum, hneg]
      rw [hdef]
      cases hnd : natDigits m.natAbs with
      | nil => exact absurd hnd (natDigits_ne_nil _)
      | cons c cs =>
        have hc : isDigit c = true :=
          natDigits_digits m.natAbs c (by rw [hnd]; simp)
        rw [parseNumBody_eq_tail c cs rest hc, ← hnd,
          parseNumTail_int m.natAbs false rest hrest]
        rw [if_neg (by decide : ¬ ((false : Bool) = true)),
          show ((m.natAbs : Int)) = m by omega]
  · by_cases hneg : m < 0
    · have hdef : renderNum m s = 45 ::
          ((List.replicate (s + 1 - (natDigits m.natAbs).length) 48 ++
            natDigits m.natAbs).take
            ((List.replicate (s + 1 - (natDigits m.natAbs).length) 48 ++
              natDigits m.natAbs).length - s) ++
          46 :: (List.replicate (s + 1 - (natDigits m.natAbs).length) 48 ++
            natDigits m.natAbs).drop
            ((List.replicate (s + 1 - (natDigits m.natAbs).length) 48 ++
              natDigits m.natAbs).length - s)) := by
        simp [renderNum, hneg, hs]
      rw [hdef, List.cons_append, parseNumBody_neg45,
        parseNumTail_frac m.natAbs s hs true rest hrest]
      simp only [reduceIte]
      rw [show -(m.natAbs : Int) = m by omega]
    · have hdef : renderNum m s =
          (List.replicate (s + 1 - (natDigits m.natAbs).length) 48 ++
            natDigits m.natAbs).take
            ((List.replicate (s + 1 - (natDigits m.natAbs).length) 48 ++
              natDigits m.natAbs).length - s) ++
          46 :: (List.replicate (s + 1 - (natDigits m.natAbs).length) 48 ++
            natDigits m.natAbs).drop
            ((List.replicate (s + 1 - (natDigits m.natAbs).length) 48 ++
              natDigits m.natAbs).length - s) := by
        simp [renderNum, hneg, hs]
      rw [hdef]
      have hplen2 : 1 ≤ ((List.replicate (s + 1 - (natDigits m.natAbs).length)
          48 ++ natDigits m.natAbs).length - s) := by
        have h1 : 1 ≤ (natDigits m.natAbs).length := by
          cases hnd : natDigits m.natAbs with
          | nil => exact absurd hnd (natDigits_ne_nil _)
          | cons a l => simp
        simp only [List.length_append, List.length_replicate]
        omega
      cases htk : (List.replicate (s + 1 - (natDigits m.natAbs).length) 48 ++
          natDigits m.natAbs).take
          ((List.replicate (s + 1 - (natDigits m.natAbs).length) 48 ++
            natDigits m.natAbs).length - s) with
      | nil =>
        exfalso
        have := congrArg List.length htk
        simp only [List.length_take, List.length_nil] at this
        simp only [List.length_append, List.length_replicate] at this hplen2
        omega
      | cons c cs =>
        have hc : isDigit c = true := by
          have hmem : c ∈ (List.replicate (s + 1 -
              (natDigits m.natAbs).length) 48 ++ natDigits m.natAbs) := by
            apply List.mem_of_mem_take (n := (List.replicate (s + 1 -
              (natDigits m.natAbs).length) 48 ++ natDigits m.natAbs).length - s)
            rw [htk]
            simp
          rcases List.mem_append.mp hmem with hmem | hmem
          · rcases List.eq_of_mem_replicate hmem with rfl
            decide
          · exact natDigits_digits _ c hmem
        rw [List.append_assoc, parseNumBody_eq_tail c cs _ hc,
          ← List.append_assoc, ← htk,
          parseNumTail_frac m.natAbs s hs false rest hrest]
        rw [if_neg (by decide : ¬ ((false : Bool) = true)),
          show ((m.natAbs : Int)) = m by omega]

/-! ## String roundtrip and head facts -/

theorem parseStrAux_esc :
    ∀ (b : Bytes) (f : Nat) (rest : Bytes),
      (escBytes b).length + rest.length + 1 ≤ f →
      parseStrAux f (escBytes b ++ (34 :: rest)) = some (b, rest) := by
  intro b
  induction b with
  | nil =>
    intro f rest hf
    simp only [escBytes, List.nil_append, List.length_nil] at hf ⊢
    cases f with
    | zero => omega
    | succ f => simp [parseStrAux]
  | cons c cb ih =>
    intro f rest hf
    by_cases hc : c = 34 ∨ c = 92
    · have hesc : escBytes (c :: cb) = 92 :: c :: escBytes cb := by
        simp [escBytes, hc]
      rw [hesc] at hf ⊢
      cases f with
      | zero => simp at hf
      | succ f =>
        simp only [List.cons_append, parseStrAux, List.append_eq, if_true]
        rw [if_pos hc, ih f rest (by simp only [List.length_cons] at hf ⊢; omega)]
        simp
    · have hc34 : ¬ c = 34 := fun h => hc (Or.inl h)
      have hc92 : ¬ c = 92 := fun h => hc (Or.inr h)
      have hesc : escBytes (c :: cb) = c :: escBytes cb := by
        simp [escBytes, hc34, hc92]
      rw [hesc] at hf ⊢
      cases f with
      | zero => simp at hf
      | succ f =>
        simp only [List.cons_append, parseStrAux, List.append_eq]
        rw [if_neg hc34, if_neg hc92,
          ih f rest (by simp only [List.length_cons] at hf ⊢; omega)]

theorem numBody_head (m : Int) (s : Nat) :
    ∃ c cs, numBody m s = c :: cs ∧ isDigit c = true := by
  by_cases hs : s = 0
  · rcases hnd : natDigits m.natAbs with _ | ⟨c, cs⟩
    · exact absurd hnd (natDigits_ne_nil _)
    · refine ⟨c, cs, ?_, natDigits_digits m.natAbs c (by rw [hnd]; simp)⟩
      simp [numBody, hs, hnd]
  · have hplen2 : 1 ≤ ((List.replicate (s + 1 - (natDigits m.natAbs).length)
        48 ++ natDigits m.natAbs).length - s) := by
      have h1 : 1 ≤ (natDigits m.natAbs).length := by
        rcases hnd : natDigits m.natAbs with _ | ⟨a, l⟩
        · exact absurd hnd (natDigits_ne_nil _)
        · simp
      simp only [List.length_append, List.length_replicate]
      omega
    rcases htk : (List.replicate (s + 1 - (natDigits m.natAbs).length) 48 ++
        natDigits m.natAbs).take
        ((List.replicate (s + 1 - (natDigits m.natAbs).length) 48 ++
          natDigits m.natAbs).length - s) with _ | ⟨c, cs⟩
    · exfalso
      have := congrArg List.length htk
      simp only [List.length_take, List.length_nil] at this
      simp only [List.length_append, List.length_replicate] at this hplen2
      omega
    · have hcd : isDigit c = true := by
        have hmem : c ∈ (List.replicate (s + 1 -
            (natDigits m.natAbs).length) 48 ++ natDigits m.natAbs) := by
          apply List.mem_of_mem_take (n := (List.replicate (s + 1 -
            (natDigits m.natAbs).length) 48 ++ natDigits m.natAbs).length - s)
          rw [htk]
          simp
        rcases List.mem_append.mp hmem with hmem | hmem
        · rcases List.eq_of_mem_replicate hmem with rfl
          decide
        · exact natDigits_digits _ c hmem
      refine ⟨c, cs ++ 46 :: (List.replicate (s + 1 -
        (natDigits m.natAbs).length) 48 ++ natDigits m.natAbs).drop
        ((List.replicate (s + 1 - (natDigits m.natAbs).length) 48 ++
          natDigits m.natAbs).length - s), ?_, hcd⟩
      simp only [numBody, if_neg hs]
      rw [htk]
      simp

theorem renderNum_decomp (m : Int) (s : Nat) :
    renderNum m s = (if m < 0 then [45] else []) ++ numBody m s := by
  simp only [renderNum, numBody]
  split_ifs <;> simp

theorem renderNum_head (m : Int) (s : Nat) :
    ∃ c cs, renderNum m s = c :: cs ∧ (c = 45 ∨ isDigit c = true) := by
  obtain ⟨c, cs, hb, hc⟩ := numBody_head m s
  rw [renderNum_decomp]
  by_cases hneg : m < 0
  · exact ⟨45, numBody m s, by simp [hneg], Or.inl rfl⟩
  · exact ⟨c, cs, by simp [hneg, hb], Or.inr hc⟩

theorem render_head (j : Json) :
    ∃ c cs, render j = c :: cs ∧
      (c = 91 ∨ c = 123 ∨ c = 34 ∨ c = 116 ∨ c = 102 ∨ c = 110 ∨ c = 45 ∨
        isDigit c = true) := by
  cases j with
  | num m s =>
    obtain ⟨c, cs, h, hc⟩ := renderNum_head m s
    exact ⟨c, cs, by simp [render, h], by tauto⟩
  | str b => exact ⟨34, escBytes b ++ [34], rfl, by tauto⟩
  | jbool b =>
    cases b with
    | true => exact ⟨116, [114, 117, 101], rfl, by tauto⟩
    | false => exact ⟨102, [97, 108, 115, 101], rfl, by tauto⟩
  | jnull => exact ⟨110, [117, 108, 108], rfl, by tauto⟩
  | arr xs =>
    cases xs with
    | nil => exact ⟨91, [93], rfl, by tauto⟩
    | cons x xs => exact ⟨91, render x ++ renderArrTail xs, rfl, by tauto⟩
  | obj fs =>
    cases fs with
    | nil => exact ⟨123, [125], rfl, by tauto⟩
    | cons e es => exact ⟨123, renderEntry e ++ renderObjTail es, rfl, by tauto⟩

theorem render_head_bound (j : Json) :
    ∃ c cs, render j = c :: cs ∧ c ≠ 93 ∧ c ≠ 125 := by
  obtain ⟨c, cs, h, hc⟩ := render_head j
  refine ⟨c, cs, h, ?_, ?_⟩ <;>
    (rcases hc with rfl | rfl | rfl | rfl | rfl | rfl | rfl | hd
     on_goal 8 => simp [isDigit] at hd
     all_goals omega)

theorem nodes_pos (j : Json) : 1 ≤ nodes j := by
  cases j <;> simp [nodes]

theorem renderNum_length_pos (m : Int) (s : Nat) :
    1 ≤ (renderNum m s).length := by
  obtain ⟨c, cs, h, _⟩ := renderNum_head m s
  rw [h]
  simp

mutual
theorem nodes_le_len : (j : Json) → nodes j ≤ (render j).length
  | .num m s => by
    have h := renderNum_length_pos m s
    simpa [nodes, render] using h
  | .str b => by simp [nodes, render]
  | .jbool b => by cases b <;> simp [nodes, render]
  | .jnull => by simp [nodes, render]
  | .arr [] => by simp [nodes, nodesL, render]
  | .arr (x :: xs) => by
    have h1 := nodes_le_len x
    have h2 := nodesL_le_len xs
    simp only [nodes, nodesL, render, List.length_cons, List.length_append]
    omega
  | .obj [] => by simp [nodes, nodesO, render]
  | .obj (e :: es) => by
    have h1 := nodes_le_len e.2
    have h2 := nodesO_le_len es
    have h3 : (renderEntry e).length =
        (escBytes e.1).length + 3 + (render e.2).length := by
      rcases e with ⟨k, v⟩
      simp [renderEntry]
      omega
    simp only [nodes, nodesO, render, List.length_cons, List.length_append, h3]
    omega

theorem nodesL_le_len : (xs : List Json) → 1 + nodesL xs ≤ (renderArrTail xs).length
  | [] => by simp [nodesL, renderArrTail]
  | x :: xs => by
    have h1 := nodes_le_len x
    have h2 := nodesL_le_len xs
    simp only [nodesL, renderArrTail, List.length_cons, List.length_append]
    omega

theorem nodesO_le_len : (es : List (Bytes × Json)) →
    1 + nodesO es ≤ (renderObjTail es).length
  | [] => by simp [nodesO, renderObjTail]
  | e :: es => by
    have h1 := nodes_le_len e.2
    have h2 := nodesO_le_len es
    have h3 : (renderEntry e).length =
        (escBytes e.1).length + 3 + (render e.2).length := by
      rcases e with ⟨k, v⟩
      simp [renderEntry]
      omega
    simp only [nodesO, renderObjTail, List.length_cons, List.length_append, h3]
    omega
end

theorem numSafe_arrTail (j : Json) (xs : List Json) (rest : Bytes) :
    numSafe j (renderArrTail xs ++ rest) := by
  cases j with
  | num m s =>
    cases xs with
    | nil =>
      exact Or.inr ⟨93, rest, by simp [renderArrTail], by decide, by decide⟩
    | cons y ys =>
      exact Or.inr ⟨44, (render y ++ renderArrTail ys) ++ rest,
        by simp [renderArrTail], by decide, by decide⟩
  | str b => trivial
  | jbool b => trivial
  | jnull => trivial
  | arr xs2 => trivial
  | obj fs => trivial

theorem numSafe_objTail (j : Json) (es : List (Bytes × Json)) (rest : Bytes) :
    numSafe j (renderObjTail es ++ rest) := by
  cases j with
  | num m s =>
    cases es with
    | nil =>
      exact Or.inr ⟨125, rest, by simp [renderObjTail], by decide, by decide⟩
    | cons e es2 =>
      exact Or.inr ⟨44, (renderEntry e ++ renderObjTail es2) ++ rest,
        by simp [renderObjTail], by decide, by decide⟩
  | str b => trivial
  | jbool b => trivial
  | jnull => trivial
  | arr xs2 => trivial
  | obj fs => trivial

/-! ## The parser inverts the renderer -/

theorem parse_render : ∀ fuel : Nat,
    (∀ (j : Json) (rest : Bytes), nodes j ≤ fuel → numSafe j rest →
      parseValue fuel (render j ++ rest) = some (j, rest)) ∧
    (∀ (x : Json) (xs : List Json) (rest : Bytes), nodesL (x :: xs) ≤ fuel →
      parseArrElems fuel (render x ++ (renderArrTail xs ++ rest)) =
        some (x :: xs, rest)) ∧
    (∀ (k : Bytes) (v : Json) (es : List (Bytes × Json)) (rest : Bytes),
      nodesO ((k, v) :: es) ≤ fuel →
      parseObjElems fuel (renderEntry (k, v) ++ (renderObjTail es ++ rest)) =
        some ((k, v) :: es, rest)) := by
  intro fuel
  induction fuel with
  | zero =>
    refine ⟨?_, ?_, ?_⟩
    · intro j rest hn _
      have := nodes_pos j
      omega
    · intro x xs rest hn
      simp only [nodesL] at hn
      omega
    · intro k v es rest hn
      simp only [nodesO] at hn
      omega
  | succ fuel ih =>
    obtain ⟨ihV, ihA, ihO⟩ := ih
    refine ⟨?_, ?_, ?_⟩
    · intro j rest hn hsafe
      cases j with
      | num m s =>
        obtain ⟨c, cs, hre, hc⟩ := renderNum_head m s
        have hcb : c = 45 ∨ (48 ≤ c ∧ c ≤ 57) := by
          rcases hc with h | h
          · exact Or.inl h
          · simp only [isDigit, Bool.and_eq_true, decide_eq_true_eq] at h
            exact Or.inr h
        rw [show render (.num m s) = renderNum m s from rfl, hre,
          List.cons_append]
        simp only [parseValue]
        rw [if_neg (by omega), if_neg (by omega), if_neg (by omega),
          if_neg (by omega), if_neg (by omega), if_neg (by omega), if_pos hc,
          ← List.cons_append, ← hre]
        exact parseNumBody_renderNum m s rest hsafe
      | str b =>
        rw [show render (.str b) = 34 :: (escBytes b ++ [34]) from rfl,
          List.cons_append]
        simp only [parseValue]
        rw [if_neg (by decide), if_neg (by decide)]
        simp only [if_true]
        have hsh : (escBytes b ++ [34]) ++ rest = escBytes b ++ (34 :: rest) := by
          simp
        rw [hsh, parseStrAux_esc b _ rest (by
          simp only [List.length_append, List.length_cons]
          omega)]
      | jbool b =>
        cases b with
        | true =>
          rw [show render (.jbool true) = [116, 114, 117, 101] from rfl]
          simp [parseValue]
        | false =>
          rw [show render (.jbool false) = [102, 97, 108, 115, 101] from rfl]
          simp [parseValue]
      | jnull =>
        rw [show render .jnull = [110, 117, 108, 108] from rfl]
        simp [parseValue]
      | arr xs =>
        cases xs with
        | nil =>
          rw [show render (.arr []) = [91, 93] from rfl]
          simp [parseValue]
        | cons x xs =>
          rw [show render (.arr (x :: xs)) =
            91 :: (render x ++ renderArrTail xs) from rfl, List.cons_append]
          simp only [parseValue, if_true]
          obtain ⟨c, cs, hre, hc93, hc125⟩ := render_head_bound x
          rw [hre]
          simp only [List.cons_append, List.append_assoc]
          rw [if_neg hc93, ← List.cons_append, ← hre,
            ihA x xs rest (by simp only [nodes, nodesL] at hn ⊢; omega)]
      | obj fs =>
        cases fs with
        | nil =>
          rw [show render (.obj []) = [123, 125] from rfl]
          simp [parseValue]
        | cons e es =>
          rcases e with ⟨k, v⟩
          rw [show render (.obj ((k, v) :: es)) =
            123 :: (renderEntry (k, v) ++ renderObjTail es) from rfl,
            List.cons_append]
          simp only [parseValue]
          rw [if_neg (by decide)]
          simp only [if_true]
          rw [show renderEntry (k, v) =
            34 :: ((escBytes k ++ [34]) ++ 58 :: render v) from rfl]
          simp only [List.cons_append, List.append_assoc]
          rw [if_neg (by decide : ¬ (34 : Nat) = 125),
            show (34 : Nat) :: (escBytes k ++ 34 ::
              ([] ++ 58 :: (render v ++ (renderObjTail es ++ rest)))) =
              renderEntry (k, v) ++ (renderObjTail es ++ rest) from by
                simp [renderEntry],
            ihO k v es rest (by simp only [nodes, nodesO] at hn ⊢; omega)]
    · intro x xs rest hn
      simp only [parseArrElems]
      rw [ihV x (renderArrTail xs ++ rest)
        (by simp only [nodesL] at hn; omega) (numSafe_arrTail x xs rest)]
      cases xs with
      | nil =>
        rw [show renderArrTail ([] : List Json) ++ rest = 93 :: rest from by
          simp [renderArrTail]]
        simp
      | cons y ys =>
        rw [show renderArrTail (y :: ys) ++ rest =
          44 :: (render y ++ (renderArrTail ys ++ rest)) from by
            simp [renderArrTail]]
        simp only [reduceIte]
        rw [ihA y ys rest (by simp only [nodesL] at hn ⊢; omega)]
    · intro k v es rest hn
      rw [show renderEntry (k, v) ++ (renderObjTail es ++ rest) =
        34 :: (escBytes k ++ (34 :: (58 :: (render v ++
          (renderObjTail es ++ rest))))) from by simp [renderEntry]]
      simp only [parseObjElems]
      simp only [reduceIte]
      rw [parseStrAux_esc k _ (58 :: (render v ++ (renderObjTail es ++ rest)))
          (by simp only [List.length_append, List.length_cons]; omega)]
      simp only [reduceIte]
      rw [ihV v (renderObjTail es ++ rest)
          (by simp only [nodesO] at hn; omega) (numSafe_objTail v es rest)]
      cases es with
      | nil =>
        rw [show renderObjTail ([] : List (Bytes × Json)) ++ rest =
          125 :: rest from by simp [renderObjTail]]
        simp
      | cons e2 es2 =>
        rcases e2 with ⟨k2, v2⟩
        rw [show renderObjTail ((k2, v2) :: es2) ++ rest =
          44 :: (renderEntry (k2, v2) ++ (renderObjTail es2 ++ rest)) from by
            simp [renderObjTail]]
        simp only [reduceIte]
        rw [ihO k2 v2 es2 rest (by simp only [nodesO] at hn ⊢; omega)]

theorem jsonParse_render (j : Json) : jsonParse (render j) = some j := by
  unfold jsonParse
  have hsafe : numSafe j [] := by
    cases j with
    | num m s => exact Or.inl rfl
    | str b => trivial
    | jbool b => trivial
    | jnull => trivial
    | arr xs => trivial
    | obj fs => trivial
  have h := (parse_render (render j).length).1 j [] (nodes_le_len j) hsafe
  rw [List.append_nil] at h
  rw [h]
  rfl

/-! ## Byte bounds of rendered payloads -/

theorem mem_escBytes : ∀ (b : Bytes), ∀ c ∈ escBytes b, c = 92 ∨ c ∈ b := by
  intro b
  induction b with
  | nil => intro c hc; simp [escBytes] at hc
  | cons x xs ih =>
    intro c hc
    simp only [escBytes] at hc
    split_ifs at hc with hx
    · simp only [List.mem_cons] at hc
      rcases hc with rfl | rfl | hc
      · exact Or.inl rfl
      · exact Or.inr (List.mem_cons_self _ _)
      · rcases ih c hc with h | h
        · exact Or.inl h
        · exact Or.inr (List.mem_cons_of_mem _ h)
    · simp only [List.mem_cons] at hc
      rcases hc with rfl | hc
      · exact Or.inr (List.mem_cons_self _ _)
      · rcases ih c hc with h | h
        · exact Or.inl h
        · exact Or.inr (List.mem_cons_of_mem _ h)

theorem natDigits_lt (n : Nat) : ∀ d ∈ natDigits n, d < 256 := by
  intro d hd
  have := natDigits_digits n d hd
  simp only [isDigit, Bool.and_eq_true, decide_eq_true_eq] at this
  omega

theorem numBody_lt (m : Int) (s : Nat) : ∀ c ∈ numBody m s, c < 256 := by
  intro c hc
  have hds := natDigits_lt m.natAbs
  have hpd : ∀ x ∈ List.replicate (s + 1 - (natDigits m.natAbs).length) 48 ++
      natDigits m.natAbs, x < 256 := by
    intro x hx
    rcases List.mem_append.mp hx with h | h
    · have := List.eq_of_mem_replicate h; omega
    · exact hds x h
  simp only [numBody] at hc
  split_ifs at hc with hs
  · exact hds c hc
  · rcases List.mem_append.mp hc with h | h
    · exact hpd c (List.mem_of_mem_take h)
    · rcases List.mem_cons.mp h with rfl | h
      · omega
      · exact hpd c (List.mem_of_mem_drop h)

theorem renderNum_lt (m : Int) (s : Nat) : ∀ c ∈ renderNum m s, c < 256 := by
  intro c hc
  rw [renderNum_decomp] at hc
  rcases List.mem_append.mp hc with h | h
  · split_ifs at h
    · rcases List.mem_singleton.mp h with rfl; omega
    · simp at h
  · exact numBody_lt m s c h

mutual
theorem render_lt : (j : Json) → jsonWf j → ∀ c ∈ render j, c < 256
  | .num m s => fun _ => renderNum_lt m s
  | .str b => by
    intro hw c hc
    simp only [jsonWf] at hw
    simp only [render, List.mem_cons, List.mem_append, List.not_mem_nil,
      or_false] at hc
    rcases hc with rfl | hc | rfl
    · omega
    · rcases mem_escBytes b c hc with rfl | h
      · omega
      · exact hw c h
    · omega
  | .jbool b => by
    intro _ c hc
    cases b <;> simp only [render, List.mem_cons, List.not_mem_nil,
      or_false] at hc <;> omega
  | .jnull => by
    intro _ c hc
    simp only [render, List.mem_cons, List.not_mem_nil, or_false] at hc
    omega
  | .arr [] => by
    intro _ c hc
    simp only [render, List.mem_cons, List.not_mem_nil, or_false] at hc
    omega
  | .arr (x :: xs) => by
    intro hw c hc
    simp only [jsonWf, jsonWfL] at hw
    simp only [render, List.mem_cons, List.mem_append] at hc
    rcases hc with rfl | hc | hc
    · omega
    · exact render_lt x hw.1 c hc
    · exact renderArrTail_lt xs hw.2 c hc
  | .obj [] => by
    intro _ c hc
    simp only [render, List.mem_cons, List.not_mem_nil, or_false] at hc
    omega
  | .obj (e :: es) => by
    intro hw c hc
    simp only [jsonWf, jsonWfO] at hw
    obtain ⟨hk, hv, hes⟩ := hw
    rcases e with ⟨k, v⟩
    simp only [render, List.mem_cons, List.mem_append] at hc
    rcases hc with rfl | hc | hc
    · omega
    · exact renderEntry_lt (k, v) hk hv c hc
    · exact renderObjTail_lt es hes c hc

theorem renderEntry_lt : (e : Bytes × Json) → (∀ c ∈ e.1, c < 256) →
    jsonWf e.2 → ∀ c ∈ renderEntry e, c < 256
  | (k, v) => by
    intro hk hv c hc
    simp only [renderEntry, List.mem_cons, List.mem_append, List.not_mem_nil,
      or_false] at hc
    rcases hc with (rfl | hc | rfl) | rfl | hc
    · omega
    · rcases mem_escBytes k c hc with rfl | h
      · omega
      · exact hk c h
    · omega
    · omega
    · exact render_lt v hv c hc

theorem renderArrTail_lt : (xs : List Json) → jsonWfL xs →
    ∀ c ∈ renderArrTail xs, c < 256
  | [] => by
    intro _ c hc
    simp only [renderArrTail, List.mem_cons, List.not_mem_nil, or_false] at hc
    omega
  | x :: xs => by
    intro hw c hc
    simp only [jsonWfL] at hw
    simp only [renderArrTail, List.mem_cons, List.mem_append] at hc
    rcases hc with rfl | hc | hc
    · omega
    · exact render_lt x hw.1 c hc
    · exact renderArrTail_lt xs hw.2 c hc

theorem renderObjTail_lt : (es : List (Bytes × Json)) → jsonWfO es →
    ∀ c ∈ renderObjTail es, c < 256
  | [] => by
    intro _ c hc
    simp only [renderObjTail, List.mem_cons, List.not_mem_nil, or_false] at hc
    omega
  | e :: es => by
    intro hw c hc
    simp only [jsonWfO] at hw
    obtain ⟨hk, hv, hes⟩ := hw
    simp only [renderObjTail, List.mem_cons, List.mem_append] at hc
    rcases hc with rfl | hc | hc
    · omega
    · exact renderEntry_lt e hk hv c hc
    · exact renderObjTail_lt es hes c hc
end

theorem mem_le16_lt (n : Nat) : ∀ c ∈ le16 n, c < 256 := by
  intro c hc
  simp only [le16, List.mem_cons, List.not_mem_nil, or_false] at hc
  rcases hc with rfl | rfl <;> omega

theorem mem_le32_lt (n : Nat) : ∀ c ∈ le32 n, c < 256 := by
  intro c hc
  simp only [le32, List.mem_cons, List.not_mem_nil, or_false] at hc
  rcases hc with rfl | rfl | rfl | rfl <;> omega

theorem mem_deflateStored_lt :
    ∀ (n : Nat) (d : Bytes), d.length ≤ n → (∀ c ∈ d, c < 256) →
      ∀ c ∈ deflateStored d, c < 256 := by
  intro n
  induction n with
  | zero =>
    intro d hl hd c hc
    have hnil : d = [] := by
      cases d with
      | nil => rfl
      | cons x xs => simp at hl
    subst hnil
    rw [deflateStored.eq_def, if_pos (by decide : ([] : Bytes).length ≤ 65535)] at hc
    simp only [List.mem_cons, List.mem_append, List.not_mem_nil,
      or_false] at hc
    rcases hc with rfl | hc | hc
    · omega
    · exact mem_le16_lt _ c hc
    · exact mem_le16_lt _ c hc
  | succ n ih =>
    intro d hl hd c hc
    rw [deflateStored.eq_def] at hc
    split_ifs at hc with hle
    · simp only [List.mem_cons, List.mem_append] at hc
      rcases hc with rfl | (hc | hc) | hc
      · omega
      · exact mem_le16_lt _ c hc
      · exact mem_le16_lt _ c hc
      · exact hd c hc
    · simp only [List.mem_cons, List.mem_append] at hc
      rcases hc with rfl | ((hc | hc) | hc) | hc
      · omega
      · exact mem_le16_lt _ c hc
      · exact mem_le16_lt _ c hc
      · exact hd c (List.mem_of_mem_take hc)
      · exact ih (d.drop 65535) (by simp only [List.length_drop]; omega)
          (fun x hx => hd x (List.mem_of_mem_drop hx)) c hc

theorem mem_gzipCompress_lt (d : Bytes) (hd : ∀ c ∈ d, c < 256) :
    ∀ c ∈ gzipCompress d, c < 256 := by
  intro c hc
  simp only [gzipCompress, List.mem_append, List.mem_cons, List.not_mem_nil,
    or_false] at hc
  rcases hc with ((hlit | hc) | hc) | hc
  all_goals first
    | omega
    | exact mem_deflateStored_lt d.length d le_rfl hd c hc
    | exact mem_le32_lt _ c hc

/-! ## The strip and selection steps of the compressed-history decoder -/

theorem b64Char_ne58 (i : Nat) : b64Char i ≠ 58 := by
  unfold b64Char
  split_ifs <;> omega

theorem stripGz_marker (p : Bytes) :
    Hist.stripGz (Hist.gzMarker ++ p) = p := by
  simp [Hist.stripGz, Hist.gzMarker, List.take, List.drop]

theorem stripGz_b64 (z : Bytes) :
    Hist.stripGz (base64Encode z) = base64Encode z := by
  unfold Hist.stripGz
  rw [if_neg]
  intro h
  match z with
  | [] => simp [base64Encode, Hist.gzMarker] at h
  | [b0] =>
    simp [base64Encode, List.take, Hist.gzMarker] at h
  | [b0, b1] =>
    simp only [base64Encode, List.take, Hist.gzMarker, List.cons.injEq,
      and_true] at h
    exact b64Char_ne58 _ h.2.2
  | b0 :: b1 :: b2 :: rest =>
    simp only [base64Encode, List.take, Hist.gzMarker, List.cons.injEq,
      and_true] at h
    exact b64Char_ne58 _ h.2.2

theorem getLast_as_get {α : Type} (l : List α) :
    l.get? (l.length - 1) = l.getLast? := by
  induction l with
  | nil => rfl
  | cons x xs ih =>
    cases xs with
    | nil => rfl
    | cons y ys =>
      rw [List.getLast?_cons_cons]
      rw [← ih]
      simp only [List.length_cons, Nat.add_sub_cancel]
      rfl

/-- C5: the compressed-history decoder strips the `"gz:"` marker if
present, base64-decodes, gzip-decompresses, JSON-decodes a `Memory`, and
by indexing `History[len(History)-1]` selects exactly the last element of
the snapshot history, discarding all earlier elements: on every input it
agrees with the spec-worded pipeline that selects the last element. -/
theorem c5_decode_pipeline (d : Bytes) :
    Hist.decodeCompressed d = Hist.specDecodeCompressed d := by
  unfold Hist.decodeCompressed Hist.specDecodeCompressed
  cases base64Decode (Hist.stripGz d) with
  | none => simp
  | some z =>
    simp only []
    cases gunzip z with
    | none => simp
    | some plain =>
      simp only []
      cases jsonParse plain with
      | none => simp
      | some j =>
        simp only []
        cases Hist.jsonToMemoryJ j with
        | none => simp
        | some mem => simpa using getLast_as_get mem.stats.history

/-! ## Round trips of the struct decoders on encoder output -/

namespace Hist

theorem decIntJ_enc (x : Int) (h : int64Ok x) :
    decIntJ (Json.num x 0) = some x := by
  obtain ⟨h1, h2⟩ := h
  simp only [decIntJ]
  rw [if_pos ⟨trivial, h1, h2⟩]

theorem decNat_enc (n : Nat) (h : n < 2 ^ 64) :
    decNat (some (Json.num (n : Int) 0)) = some n := by
  simp only [decNat]
  rw [if_pos ⟨trivial, Int.natCast_nonneg n, by exact_mod_cast h⟩]
  simp

theorem jsonToProgress_of (p : Progress) (h : wfProgress p) :
    jsonToProgress (some (jsonOfProgress p)) = some p := by
  simp [jsonOfProgress, jsonToProgress, jLookup, kLevel, kProgress,
    kProgressTotal, jsonOfFloat, decInt, decFloat, decIntJ_enc p.level h]

theorem jsonToCpu_of (c : Cpu) :
    jsonToCpu (some (jsonOfCpu c)) = some c := by
  simp [jsonOfCpu, jsonToCpu, jLookup, kUsed, kLimit, kBucket,
    jsonOfFloat, decFloat]

theorem mput_notMem {α : Type} (k : Bytes) (v : α) :
    ∀ (l : List (Bytes × α)), k ∉ l.map Prod.fst →
      mput l k v = l ++ [(k, v)] := by
  intro l
  induction l with
  | nil => intro _; rfl
  | cons e t ih =>
    intro hk
    simp only [List.map_cons, List.mem_cons] at hk
    push_neg at hk
    simp only [mput, List.cons_append, ih hk.2]
    rw [if_neg fun h => hk.1 h.symm]

theorem decMapAux_enc {α : Type} (dec : Json → Option α) (enc : α → Json)
    (l : List (Bytes × α)) :
    ∀ (acc : List (Bytes × α)),
      (∀ e ∈ l, dec (enc e.2) = some e.2) →
      (l.map Prod.fst).Nodup →
      (∀ k ∈ l.map Prod.fst, k ∉ acc.map Prod.fst) →
      decMapAux dec (l.map (fun e => (e.1, enc e.2))) acc = some (acc ++ l) := by
  induction l with
  | nil => intro acc _ _ _; simp [decMapAux]
  | cons e t ih =>
    intro acc hdec hnd hdisj
    simp only [List.map_cons, decMapAux, hdec e (List.mem_cons_self _ _)]
    rw [mput_notMem e.1 e.2 acc
      (hdisj e.1 (by simp only [List.map_cons]; exact List.mem_cons_self _ _))]
    rw [ih (acc ++ [(e.1, e.2)])
      (fun x hx => hdec x (List.mem_cons_of_mem _ hx))
      (by simp only [List.map_cons, List.nodup_cons] at hnd; exact hnd.2)
      ?disj]
    · simp
    case disj =>
      intro k hk
      simp only [List.map_append, List.map_cons, List.map_nil,
        List.mem_append, List.mem_singleton, List.not_mem_nil]
      push_neg
      constructor
      · exact hdisj k (by simp only [List.map_cons]; exact List.mem_cons_of_mem _ hk)
      · intro hke
        simp only [List.map_cons, List.nodup_cons] at hnd
        exact hnd.1 (hke ▸ hk)

theorem decMap_enc {α : Type} (dec : Json → Option α) (enc : α → Json)
    (l : List (Bytes × α))
    (hdec : ∀ e ∈ l, dec (enc e.2) = some e.2)
    (hnd : (l.map Prod.fst).Nodup) :
    decMap dec (some (Json.obj (l.map (fun e => (e.1, enc e.2))))) = some l := by
  simp only [decMap, decMapAux_enc dec enc l [] hdec hnd (by simp),
    List.nil_append]

theorem decListAux_enc {α : Type} (dec : Json → Option α) (enc : α → Json) :
    ∀ (l : List α), (∀ x ∈ l, dec (enc x) = some x) →
      decListAux dec (l.map enc) = some l := by
  intro l
  induction l with
  | nil => intro _; rfl
  | cons x t ih =>
    intro hd
    simp only [List.map_cons, decListAux, hd x (List.mem_cons_self _ _),
      ih (fun y hy => hd y (List.mem_cons_of_mem _ hy))]

theorem decList_enc {α : Type} (dec : Json → Option α) (enc : α → Json)
    (l : List α) (hd : ∀ x ∈ l, dec (enc x) = some x) :
    decList dec (some (Json.arr (l.map enc))) = some l := by
  simp only [decList, decListAux_enc dec enc l hd]

theorem jsonToRoomJ_of (r : Room) (h : wfRoom r) :
    jsonToRoomJ (jsonOfRoom r) = some r := by
  obtain ⟨hrcl, hst, hcr, hsg⟩ := h
  have est := decMap_enc decIntJ (fun v => Json.num v 0) r.structures
    (fun e he => decIntJ_enc e.2 (hst.1 e he).2) hst.2
  have esg := decMap_enc decIntJ (fun v => Json.num v 0) r.storage
    (fun e he => decIntJ_enc e.2 (hsg.1 e he).2) hsg.2
  simp [jsonOfRoom, jsonToRoomJ, jLookup, kRcl, kStructures, kCreeps,
    kEnergyAvailable, kEnergyCapacityAvailable, kStorage, jsonOfIntMap,
    jsonOfFloat, decInt, decFloat, decIntJ_enc r.creeps hcr,
    jsonToProgress_of r.rcl hrcl, est, esg]

theorem jsonToStatsJ_of (s : Stats) (h : wfStats s) :
    jsonToStatsJ (jsonOfStats s) = some s := by
  obtain ⟨ht, hm, hg1, hg2, hr, hnd⟩ := h
  have erooms := decMap_enc jsonToRoomJ jsonOfRoom s.rooms
    (fun e he => jsonToRoomJ_of e.2 (hr e he).2) hnd
  have l1 : jLookup [(kTick, Json.num (s.tick : Int) 0),
      (kMs, Json.num (s.ms : Int) 0), (kCpu, jsonOfCpu s.cpu),
      (kGcl, jsonOfProgress s.gcl), (kGpl, jsonOfProgress s.gpl),
      (kRooms, Json.obj (s.rooms.map (fun e => (e.1, jsonOfRoom e.2))))]
      kTick = some (Json.num (s.tick : Int) 0) := rfl
  have l2 : jLookup [(kTick, Json.num (s.tick : Int) 0),
      (kMs, Json.num (s.ms : Int) 0), (kCpu, jsonOfCpu s.cpu),
      (kGcl, jsonOfProgress s.gcl), (kGpl, jsonOfProgress s.gpl),
      (kRooms, Json.obj (s.rooms.map (fun e => (e.1, jsonOfRoom e.2))))]
      kMs = some (Json.num (s.ms : Int) 0) := rfl
  have l3 : jLookup [(kTick, Json.num (s.tick : Int) 0),
      (kMs, Json.num (s.ms : Int) 0), (kCpu, jsonOfCpu s.cpu),
      (kGcl, jsonOfProgress s.gcl), (kGpl, jsonOfProgress s.gpl),
      (kRooms, Json.obj (s.rooms.map (fun e => (e.1, jsonOfRoom e.2))))]
      kCpu = some (jsonOfCpu s.cpu) := rfl
  have l4 : jLookup [(kTick, Json.num (s.tick : Int) 0),
      (kMs, Json.num (s.ms : Int) 0), (kCpu, jsonOfCpu s.cpu),
      (kGcl, jsonOfProgress s.gcl), (kGpl, jsonOfProgress s.gpl),
      (kRooms, Json.obj (s.rooms.map (fun e => (e.1, jsonOfRoom e.2))))]
      kGcl = some (jsonOfProgress s.gcl) := rfl
  have l5 : jLookup [(kTick, Json.num (s.tick : Int) 0),
      (kMs, Json.num (s.ms : Int) 0), (kCpu, jsonOfCpu s.cpu),
      (kGcl, jsonOfProgress s.gcl), (kGpl, jsonOfProgress s.gpl),
      (kRooms, Json.obj (s.rooms.map (fun e => (e.1, jsonOfRoom e.2))))]
      kGpl = some (jsonOfProgress s.gpl) := rfl
  have l6 : jLookup [(kTick, Json.num (s.tick : Int) 0),
      (kMs, Json.num (s.ms : Int) 0), (kCpu, jsonOfCpu s.cpu),
      (kGcl, jsonOfProgress s.gcl), (kGpl, jsonOfProgress s.gpl),
      (kRooms, Json.obj (s.rooms.map (fun e => (e.1, jsonOfRoom e.2))))]
      kRooms = some (Json.obj (s.rooms.map (fun e => (e.1, jsonOfRoom e.2)))) :=
    rfl
  show jsonToStatsJ (Json.obj [(kTick, Json.num (s.tick : Int) 0),
      (kMs, Json.num (s.ms : Int) 0), (kCpu, jsonOfCpu s.cpu),
      (kGcl, jsonOfProgress s.gcl), (kGpl, jsonOfProgress s.gpl),
      (kRooms, Json.obj (s.rooms.map (fun e => (e.1, jsonOfRoom e.2))))]) =
    some s
  rw [jsonToStatsJ, l1, l2, l3, l4, l5, l6, decNat_enc s.tick ht,
    decNat_enc s.ms hm, jsonToCpu_of s.cpu, jsonToProgress_of s.gcl hg1,
    jsonToProgress_of s.gpl hg2, erooms]

theorem jsonToMemoryJ_of (hist : List Stats)
    (hw : ∀ s ∈ hist, wfStats s) :
    jsonToMemoryJ (jsonOfMemory hist) = some ⟨⟨hist⟩⟩ := by
  have eh := decList_enc jsonToStatsJ jsonOfStats hist
    (fun s hs => jsonToStatsJ_of s (hw s hs))
  simp [jsonOfMemory, jsonToMemoryJ, jsonToMemoryStats, jLookup,
    kStats, kHistory, eh]

theorem jsonWf_ofProgress (p : Progress) : jsonWf (jsonOfProgress p) := by
  simp only [jsonOfProgress, jsonOfFloat, jsonWf, jsonWfO]
  refine ⟨?_, trivial, ?_, trivial, ?_, trivial, trivial⟩ <;> decide

theorem jsonWf_ofCpu (c : Cpu) : jsonWf (jsonOfCpu c) := by
  simp only [jsonOfCpu, jsonOfFloat, jsonWf, jsonWfO]
  refine ⟨?_, trivial, ?_, trivial, ?_, trivial, trivial⟩ <;> decide

theorem jsonWf_ofIntMap : ∀ (l : List (Bytes × Int)), wfIntMap l →
    jsonWfO (l.map (fun e => (e.1, Json.num e.2 0))) := by
  intro l
  induction l with
  | nil => intro _; simp [jsonWfO]
  | cons e t ih =>
    intro h
    obtain ⟨hall, hnd⟩ := h
    simp only [List.map_cons, jsonWfO, jsonWf]
    refine ⟨(hall e (List.mem_cons_self _ _)).1, trivial, ?_⟩
    refine ih ⟨fun x hx => hall x (List.mem_cons_of_mem _ hx), ?_⟩
    simp only [List.map_cons, List.nodup_cons] at hnd
    exact hnd.2

theorem jsonWf_ofRoom (r : Room) (h : wfRoom r) : jsonWf (jsonOfRoom r) := by
  obtain ⟨hrcl, hst, hcr, hsg⟩ := h
  simp only [jsonOfRoom, jsonOfFloat, jsonOfIntMap, jsonWf, jsonWfO]
  exact ⟨by decide, jsonWf_ofProgress r.rcl, by decide,
    jsonWf_ofIntMap r.structures hst, by decide, trivial, by decide, trivial,
    by decide, trivial, by decide, jsonWf_ofIntMap r.storage hsg, trivial⟩

theorem jsonWf_ofRoomMap : ∀ (l : List (Bytes × Room)),
    (∀ e ∈ l, wfBytes e.1 ∧ wfRoom e.2) →
    jsonWfO (l.map (fun e => (e.1, jsonOfRoom e.2))) := by
  intro l
  induction l with
  | nil => intro _; simp [jsonWfO]
  | cons e t ih =>
    intro h
    simp only [List.map_cons, jsonWfO]
    exact ⟨(h e (List.mem_cons_self _ _)).1,
      jsonWf_ofRoom e.2 (h e (List.mem_cons_self _ _)).2,
      ih (fun x hx => h x (List.mem_cons_of_mem _ hx))⟩

theorem jsonWf_ofStats (s : Stats) (h : wfStats s) :
    jsonWf (jsonOfStats s) := by
  obtain ⟨ht, hm, hg1, hg2, hr, hnd⟩ := h
  simp only [jsonOfStats, jsonWf, jsonWfO]
  exact ⟨by decide, trivial, by decide, trivial, by decide,
    jsonWf_ofCpu s.cpu, by decide, jsonWf_ofProgress s.gcl, by decide,
    jsonWf_ofProgress s.gpl, by decide, jsonWf_ofRoomMap s.rooms hr, trivial⟩

theorem jsonWf_ofMemory (hist : List Stats) (hw : ∀ s ∈ hist, wfStats s) :
    jsonWf (jsonOfMemory hist) := by
  have hl : ∀ (l : List Stats), (∀ s ∈ l, wfStats s) →
      jsonWfL (l.map jsonOfStats) := by
    intro l
    induction l with
    | nil => intro _; simp [jsonWfL]
    | cons x t ih =>
      intro hx
      simp only [List.map_cons, jsonWfL]
      exact ⟨jsonWf_ofStats x (hx x (List.mem_cons_self _ _)),
        ih (fun y hy => hx y (List.mem_cons_of_mem _ hy))⟩
  simp only [jsonOfMemory, jsonWf, jsonWfO, jsonWfL]
  exact ⟨by decide, ⟨by decide, hl hist hw, trivial⟩, trivial⟩

theorem payload_lt (hist : List Stats) (hw : ∀ s ∈ hist, wfStats s) :
    ∀ c ∈ gzipCompress (render (jsonOfMemory hist)), c < 256 :=
  mem_gzipCompress_lt _ (render_lt _ (jsonWf_ofMemory hist hw))

end Hist

theorem stripGz_encodeStats (s : Hist.Stats) (b : Bool) :
    Hist.stripGz (Hist.encodeStats b s) =
      base64Encode (gzipCompress (render (Hist.jsonOfMemory [s]))) := by
  cases b with
  | true =>
    rw [show Hist.encodeStats true s = Hist.gzMarker ++
      base64Encode (gzipCompress (render (Hist.jsonOfMemory [s]))) from rfl]
    exact stripGz_marker _
  | false =>
    rw [show Hist.encodeStats false s =
      base64Encode (gzipCompress (render (Hist.jsonOfMemory [s]))) from rfl]
    exact stripGz_b64 _

theorem decode_encode_steps (s : Hist.Stats) (h : Hist.wfStats s) (b : Bool) :
    base64Decode (Hist.stripGz (Hist.encodeStats b s)) =
      some (gzipCompress (render (Hist.jsonOfMemory [s]))) := by
  have hw : ∀ x ∈ [s], Hist.wfStats x := by
    intro x hx
    rcases List.mem_singleton.mp hx with rfl
    exact h
  rw [stripGz_encodeStats s b]
  exact base64_roundtrip _ (Hist.payload_lt [s] hw)

theorem decodeCompressed_eq (d z p : Bytes) (j : Json) (mem : Hist.Memory)
    (h1 : base64Decode (Hist.stripGz d) = some z)
    (h2 : gunzip z = some p)
    (h3 : jsonParse p = some j)
    (h4 : Hist.jsonToMemoryJ j = some mem) :
    Hist.decodeCompressed d =
      mem.stats.history.get? (mem.stats.history.length - 1) := by
  unfold Hist.decodeCompressed
  rw [h1]
  simp only []
  rw [h2]
  simp only []
  rw [h3]
  simp only []
  rw [h4]

/-- C6: encoding a `Stats` snapshot with the compressed-history strategy
(JSON in a one-snapshot `Memory`, gzip, base64, with or without the
`"gz:"` marker) and decoding it with the program's decode pipeline
reproduces the snapshot exactly, for every well-formed snapshot. -/
theorem c6_roundtrip (s : Hist.Stats) (b : Bool) (h : Hist.wfStats s) :
    Hist.decodeCompressed (Hist.encodeStats b s) = some s := by
  have hw : ∀ x ∈ [s], Hist.wfStats x := by
    intro x hx
    rcases List.mem_singleton.mp hx with rfl
    exact h
  rw [decodeCompressed_eq (Hist.encodeStats b s)
    (gzipCompress (render (Hist.jsonOfMemory [s])))
    (render (Hist.jsonOfMemory [s])) (Hist.jsonOfMemory [s]) ⟨⟨[s]⟩⟩
    (decode_encode_steps s h b)
    (gunzip_gzipCompress (render (Hist.jsonOfMemory [s])))
    (jsonParse_render (Hist.jsonOfMemory [s]))
    (Hist.jsonToMemoryJ_of [s] hw)]
  rfl

theorem updateStats2_panics (body z p : Bytes) (bj j : Json)
    (mr : Hist.MemoryResponse) (mem : Hist.Memory)
    (h0 : jsonParse body = some bj)
    (h1 : Hist.jsonToMemoryResponseJ bj = some mr)
    (h2 : base64Decode (Hist.stripGz mr.data) = some z)
    (h3 : gunzip z = some p)
    (h4 : jsonParse p = some j)
    (h5 : Hist.jsonToMemoryJ j = some mem)
    (h6 : mem.stats.history.isEmpty = true) :
    Hist.updateStats2 body = Hist.CycleOutcome.panicked := by
  unfold Hist.updateStats2
  rw [h0]
  simp only []
  rw [h1]
  simp only []
  rw [h2]
  simp only []
  rw [h3]
  simp only []
  rw [h4]
  simp only []
  rw [h5]
  simp only []
  rw [h6]
  simp

/-- C4: the spec promises that a collection cycle terminates normally
(log and return) on every response observed in steady state; on a
response whose decoded memory document holds an empty stats history, the
cycle instead panics at the out-of-range indexing
`memory.Stats.History[len(memory.Stats.History)-1]` of line 575. -/
theorem c4_crash_on_empty_history :
    Hist.updateStats2 bodyC4 = Hist.CycleOutcome.panicked := by
  have hw0 : ∀ x ∈ ([] : List Hist.Stats), Hist.wfStats x := by
    intro x hx
    simp at hx
  have h0 : jsonParse bodyC4 = some envJsonC4 := jsonParse_render envJsonC4
  have h1 : Hist.jsonToMemoryResponseJ envJsonC4 =
      some ⟨1, datumC4⟩ := rfl
  have h2 : base64Decode (Hist.stripGz datumC4) =
      some (gzipCompress (render (Hist.jsonOfMemory []))) := by
    rw [show datumC4 = Hist.gzMarker ++
      base64Encode (gzipCompress (render (Hist.jsonOfMemory []))) from rfl,
      stripGz_marker]
    exact base64_roundtrip _ (Hist.payload_lt [] hw0)
  exact updateStats2_panics bodyC4
    (gzipCompress (render (Hist.jsonOfMemory [])))
    (render (Hist.jsonOfMemory [])) envJsonC4 (Hist.jsonOfMemory [])
    ⟨1, datumC4⟩ ⟨⟨[]⟩⟩ h0 h1 h2
    (gunzip_gzipCompress (render (Hist.jsonOfMemory [])))
    (jsonParse_render (Hist.jsonOfMemory []))
    (Hist.jsonToMemoryJ_of [] hw0) rfl

/-- C6 witness: the round trip at a concrete snapshot, both with and
without the marker. -/
theorem c6_roundtrip_witness :
    Hist.wfStats stC6 ∧
      Hist.decodeCompressed (Hist.encodeStats true stC6) = some stC6 ∧
      Hist.decodeCompressed (Hist.encodeStats false stC6) = some stC6 := by
  have hwf : Hist.wfStats stC6 := by
    simp [Hist.wfStats, Hist.wfProgress, Hist.wfRoom, Hist.wfIntMap,
      Hist.wfBytes, Hist.int64Ok, stC6]
  exact ⟨hwf, c6_roundtrip stC6 true hwf, c6_roundtrip stC6 false hwf⟩
